import Mathlib

/-!
Verification of the HealthEcho RAG chatbot's document pipeline.

This file gives a shallow embedding, in Lean 4, of the core algorithms of the
repository (text chunking, adaptive retrieval filtering, context assembly,
vector-store bookkeeping, ingestion idempotency, and the conversational turn's
post-processing), translated from the Python sources, and proves or refutes
the behavioural properties stated about them.

Strings are modelled as `List Char`.  Python floating-point scores are
modelled as rationals (`ℚ`); the arithmetic used by the code (comparisons,
multiplication by 0.7 and 1.2, max) is exact on the values involved.
Python integers are modelled as `ℤ` where subtraction can go negative and as
`ℕ` elsewhere.
-/

/-- Python's whitespace predicate (`str.isspace` on a single character), the
character class stripped by `str.strip()` and matched by the regex `\s`.
Covers the ASCII whitespace characters plus the Unicode space characters. -/
def pyIsSpace (c : Char) : Bool :=
  c == ' ' || c == '\t' || c == '\n' || c == '\r' || c == '\x0b' || c == '\x0c' ||
  c == '\x1c' || c == '\x1d' || c == '\x1e' || c == '\x1f' || c == '\x85' ||
  c == '\u00a0' || c == '\u1680' || c == '\u2000' || c == '\u2001' || c == '\u2002' ||
  c == '\u2003' || c == '\u2004' || c == '\u2005' || c == '\u2006' || c == '\u2007' ||
  c == '\u2008' || c == '\u2009' || c == '\u200a' || c == '\u2028' || c == '\u2029' ||
  c == '\u202f' || c == '\u205f' || c == '\u3000'

/-- Python `str.lstrip()`. -/
def lstrip (l : List Char) : List Char := l.dropWhile pyIsSpace

/-- Python `str.rstrip()`. -/
def rstrip (l : List Char) : List Char := (l.reverse.dropWhile pyIsSpace).reverse

/-- Python `str.strip()`. -/
def pyStrip (l : List Char) : List Char := lstrip (rstrip l)

/-- Helper for `collapseWhitespace`: the Boolean records whether the previous
character was whitespace (in which case further whitespace is dropped, the
run having already been replaced by one space). -/
def collapseAux : Bool → List Char → List Char
  | _, [] => []
  | prevWs, c :: rest =>
    if pyIsSpace c then
      if prevWs then collapseAux true rest
      else ' ' :: collapseAux true rest
    else c :: collapseAux false rest

/-- Python `re.sub(r'\s+', ' ', s)`: every maximal run of whitespace becomes a
single space. -/
def collapseWhitespace (l : List Char) : List Char := collapseAux false l

/-- Python `text.split('\n\n')`: split on non-overlapping occurrences of the
two-newline separator, scanning left to right. -/
def splitOnNl2 : List Char → List (List Char)
  | '\n' :: '\n' :: rest => [] :: splitOnNl2 rest
  | c :: rest => (splitOnNl2 rest).modifyHead (c :: ·)
  | [] => [[]]

/-- Python `l[-n:]` for `n ≥ 1`: the last `min n (length l)` elements. -/
def takeRight (n : ℕ) (l : List Char) : List Char := l.drop (l.length - n)

/-! ## TextChunker._split_text (src/document_processing/text_chunker.py)

`chunk_size` and `chunk_overlap` are the constructor parameters; Python
requires `chunk_size > chunk_overlap` for the force-split stride
`range(0, len(para), chunk_size - chunk_overlap)` to be legal. -/

/-- Step 1 of `_split_text`, lines 61-62: paragraph split, whitespace
normalisation, and removal of blank paragraphs.
`[re.sub(r'\s+', ' ', para).strip() for para in paragraphs if para.strip()]`. -/
def normalizeParagraphs (text : List Char) : List (List Char) :=
  ((splitOnNl2 text).filter (fun p => !(pyStrip p).isEmpty)).map
    (fun p => pyStrip (collapseWhitespace p))

/-- The start offsets visited by Python's `range(0, len, stride)`:
`[0, stride, 2*stride, ...]`, of which there are `⌈len / stride⌉`. -/
def strideStarts (len stride : ℕ) : List ℕ :=
  (List.range ((len + stride - 1) / stride)).map (· * stride)

/-- Lines 76-78 of `_split_text`: force-split an oversized paragraph at fixed
strides of `chunk_size - chunk_overlap`, each sub-chunk being
`para[i:i + chunk_size].strip()`.  Faithful to the Python for
`chunkSize > chunkOverlap` (otherwise Python's `range` raises). -/
def forceSplitParagraph (chunkSize chunkOverlap : ℕ) (para : List Char) : List (List Char) :=
  (strideStarts para.length (chunkSize - chunkOverlap)).map
    (fun i => pyStrip ((para.drop i).take chunkSize))

/-- Lines 64-84 of `_split_text`: greedily pack normalised paragraphs into a
running buffer `current_chunk`; flush the stripped buffer when the next
paragraph would not fit; force-split paragraphs longer than `chunk_size`. -/
def packParagraphs (chunkSize chunkOverlap : ℕ) : List (List Char) → List Char → List (List Char)
  | [], current => if current.isEmpty then [] else [pyStrip current]
  | para :: rest, current =>
    if current.length + para.length + 2 ≤ chunkSize then
      packParagraphs chunkSize chunkOverlap rest (current ++ para ++ ['\n', '\n'])
    else
      (if current.isEmpty then [] else [pyStrip current]) ++
        (if chunkSize < para.length then
          forceSplitParagraph chunkSize chunkOverlap para ++
            packParagraphs chunkSize chunkOverlap rest []
        else
          packParagraphs chunkSize chunkOverlap rest (para ++ ['\n', '\n']))

/-- Lines 86-93 of `_split_text` for the chunks after the first: chunk `i` is
`(chunks[i-1][-chunk_overlap:] + chunks[i]).strip()` when overlap is enabled
(`prev` is the previous chunk of the pre-overlap list). -/
def applyOverlapAux (chunkOverlap : ℕ) (includeOverlap : Bool) (prev : List Char) :
    List (List Char) → List (List Char)
  | [] => []
  | c :: cs =>
    (if 0 < chunkOverlap then
      pyStrip (if includeOverlap then takeRight chunkOverlap prev ++ c else c)
    else pyStrip c) :: applyOverlapAux chunkOverlap includeOverlap c cs

/-- Step 2 of `_split_text`, lines 86-93: the first chunk is only stripped;
later chunks receive the trailing overlap of the previous pre-overlap chunk. -/
def applyOverlap (chunkOverlap : ℕ) (includeOverlap : Bool) :
    List (List Char) → List (List Char)
  | [] => []
  | c :: cs => pyStrip c :: applyOverlapAux chunkOverlap includeOverlap c cs

/-- `TextChunker._split_text` (text_chunker.py lines 56-94). -/
def splitText (chunkSize chunkOverlap : ℕ) (includeOverlap : Bool) (text : List Char) :
    List (List Char) :=
  applyOverlap chunkOverlap includeOverlap
    (packParagraphs chunkSize chunkOverlap (normalizeParagraphs text) [])

/-- The list has at least one non-whitespace character. -/
def HasInk (l : List Char) : Prop := ∃ c ∈ l, ¬(pyIsSpace c = true)

/-- The list has no two adjacent whitespace characters (the shape produced by
`collapseWhitespace`). -/
def NoWsRun (l : List Char) : Prop :=
  l.Chain' (fun a b => pyIsSpace a = false ∨ pyIsSpace b = false)

/-! ## VectorSearch.search adaptive filter (src/retrieval/vector_search.py)

Scores are Python floats, modelled as rationals; `0.7` is exactly `7/10`. -/

/-- `SIMILARITY_THRESHOLD` from src/config.py (the later assignment, line 44,
is the one in force at import time). -/
def SIMILARITY_THRESHOLD : ℚ := 45 / 100

/-- Python `max(a, b)` on two numbers. -/
def pyMax (a b : ℚ) : ℚ := if a ≤ b then b else a

/-- Python `max(iterable)` over `s0 :: rest`. -/
def pyMaxList (s0 : ℚ) (rest : List ℚ) : ℚ := rest.foldl pyMax s0

/-- Lines 54-75 of vector_search.py, applied to a non-empty candidate score
list `s0 :: rest` (the code guards `if results`): keep the scores strictly
above `max(SIMILARITY_THRESHOLD, max_score * 0.7)`; if fewer than 2 survive
while more than 2 candidates exist, relax to the static threshold alone. -/
def dynamicFilter (s0 : ℚ) (rest : List ℚ) : List ℚ :=
  let results := s0 :: rest
  let maxScore := pyMaxList s0 rest
  let dynamicThreshold := pyMax SIMILARITY_THRESHOLD (maxScore * (7 / 10))
  let filtered := results.filter (fun s => decide (dynamicThreshold < s))
  if filtered.length < 2 ∧ 2 < results.length then
    results.filter (fun s => decide (SIMILARITY_THRESHOLD < s))
  else filtered

/-- The strict pass of the adaptive filter (lines 63-66 of vector_search.py),
before the relaxed fallback of lines 69-73. -/
def strictFiltered (s0 : ℚ) (rest : List ℚ) : List ℚ :=
  (s0 :: rest).filter
    (fun s => decide (pyMax SIMILARITY_THRESHOLD (pyMaxList s0 rest * (7 / 10)) < s))

/-! ## ContextBuilder.build_context (src/retrieval/context_builder.py) -/

/-- A retrieval result as consumed by `build_context`. -/
structure RetrievedDoc where
  title : List Char
  source_file : List Char
  content : List Char
  score : ℚ
deriving DecidableEq

/-- An entry of the `sources` list built by `build_context`. -/
structure SourceInfo where
  title : List Char
  source_file : List Char
  score : ℚ
deriving DecidableEq

/-- The separator `"\n\n---\n\n"` used by `"\n\n---\n\n".join(context_parts)`
(line 161 of context_builder.py); it is 7 characters long. -/
def ctxSep : List Char := ['\n', '\n', '-', '-', '-', '\n', '\n']

/-- Python `text.rfind(c, 0, limit)` restricted to a successful result: the
highest index `< limit` at which `c` occurs, if any. -/
def rfindCharBefore (text : List Char) (c : Char) (limit : ℕ) : Option ℕ :=
  match (text.take limit).reverse.findIdx? (· == c) with
  | none => none
  | some j => some ((text.take limit).length - 1 - j)

/-- `ContextBuilder._find_sentence_cutoff` (context_builder.py lines 178-183). -/
def findSentenceCutoff (text : List Char) (limit : ℕ) : ℕ :=
  match rfindCharBefore text '.' limit with
  | some e => e + 1
  | none =>
    match rfindCharBefore text ' ' limit with
    | some e => e + 1
    | none => limit

/-- The `source_info` dictionary built at lines 153-157 of context_builder.py. -/
def mkSourceInfo (d : RetrievedDoc) : SourceInfo := ⟨d.title, d.source_file, d.score⟩

/-- The packing loop of `build_context` (context_builder.py lines 134-159):
documents are consumed in order; blank contents are skipped; a document whose
stripped content exceeds the remaining character budget is truncated at a
sentence boundary when at least 300 characters remain (and in that case no
source entry is appended) and the loop stops; otherwise the content is added
in full and its source is appended unless an entry with the same
`(title, source_file)` already exists.  `totalChars` and the budget are
Python ints, modelled as `ℤ`. -/
def buildLoop (charLimit : ℤ) : List RetrievedDoc → List (List Char) → List SourceInfo → ℤ →
    List (List Char) × List SourceInfo
  | [], parts, sources, _ => (parts, sources)
  | doc :: rest, parts, sources, totalChars =>
    let content := pyStrip doc.content
    if content.isEmpty then buildLoop charLimit rest parts sources totalChars
    else
      let remainingChars := charLimit - totalChars
      if remainingChars < (content.length : ℤ) then
        if 300 ≤ remainingChars then
          (parts ++ [pyStrip (content.take (findSentenceCutoff content remainingChars.toNat))],
            sources)
        else (parts, sources)
      else
        buildLoop charLimit rest (parts ++ [content])
          (if sources.any (fun s => s.title == doc.title && s.source_file == doc.source_file)
            then sources else sources ++ [mkSourceInfo doc])
          (totalChars + content.length)

/-- `documents.sort(key=lambda d: d.get("score", 0), reverse=True)`
(line 128): a stable descending sort by score.  Python's `list.sort` is
stable; a stable sort's output is determined by the key comparator, so the
insertion sort below (which keeps earlier elements before later elements of
equal score) computes the same list. -/
def sortByScoreDesc (documents : List RetrievedDoc) : List RetrievedDoc :=
  documents.insertionSort (fun a b => b.score ≤ a.score)

/-- `ContextBuilder.build_context` (context_builder.py lines 75-176), given
the character-per-token estimate `avgTokenLen` already computed from the
configured tokenizer and the retrieval results `documents`.  Returns the
joined context string and the source list. -/
def buildContext (avgTokenLen maxTokens : ℕ) (documents : List RetrievedDoc) :
    List Char × List SourceInfo :=
  if documents.isEmpty then ([], [])
  else
    let res := buildLoop ((maxTokens * avgTokenLen : ℕ) : ℤ) (sortByScoreDesc documents) [] [] 0
    (List.intercalate ctxSep res.1, res.2)

/-- Helper for Python `str.split()` with no separator: `cur` is the current
word being accumulated, in reverse. -/
def splitWsAux : List Char → List Char → List (List Char)
  | cur, [] => if cur.isEmpty then [] else [cur.reverse]
  | cur, c :: rest =>
    if pyIsSpace c then
      if cur.isEmpty then splitWsAux [] rest
      else cur.reverse :: splitWsAux [] rest
    else splitWsAux (c :: cur) rest

/-- Python `str.split()` with no arguments: whitespace-separated words. -/
def pySplitWhitespace (l : List Char) : List (List Char) := splitWsAux [] l

/-- The sample sentence of context_builder.py lines 89-90. -/
def sampleText : List Char := String.toList "This is a sample sentence to estimate token length."

/-- The characters-per-token estimate computed at lines 87-92 of
context_builder.py with the default tokenizer (`len(text.split())`):
`max(1, len(sample) // tokenizer(sample))`.  The default tokenizer cannot
raise, so the `except` fallback to 4 is not exercised. -/
def defaultAvgTokenLen : ℕ :=
  max 1 (sampleText.length / (pySplitWhitespace sampleText).length)

/-! ## VectorStore (src/database/vector_store.py)

The FAISS index is modelled by the list of vectors it holds (`index.ntotal`
is its length); documents are identified by an opaque id modelled as a
`List Char`.  The on-disk `documents.json` / `vectors.npy` pair is part of
the state.  `vecsDim` models `vectors.shape[1]` of the numpy argument. -/

structure VectorStoreState where
  indexVecs : List (List ℚ)
  documents : List (List Char)
  vectors : List (List ℚ)
  dimension : ℕ
  diskDocs : Option (List (List Char))
  diskVecs : Option (List (List ℚ))
deriving DecidableEq

/-- `VectorStore._save_to_disk` (vector_store.py lines 186-209): documents
are always written; vectors only when non-empty (otherwise the previous
vectors file is left in place). -/
def saveToDisk (st : VectorStoreState) : VectorStoreState :=
  { st with
    diskDocs := some st.documents
    diskVecs := if 0 < st.vectors.length then some st.vectors else st.diskVecs }

/-- `VectorStore.add_documents` (vector_store.py lines 84-124): on a
dimension mismatch the method logs and returns before any mutation;
otherwise the vectors are added to the index and the in-memory copy, the
documents are appended to the id-map, and the state is saved to disk. -/
def addDocuments (st : VectorStoreState) (docs : List (List Char)) (vecs : List (List ℚ))
    (vecsDim : ℕ) : VectorStoreState :=
  if vecsDim ≠ st.dimension then st
  else
    saveToDisk
      { st with
        indexVecs := st.indexVecs ++ vecs
        vectors := st.vectors ++ vecs
        documents := st.documents ++ docs }

/-- `VectorStore._load_documents` (vector_store.py lines 44-82): documents
are loaded if the documents file exists; vectors are then loaded if their
file exists; the vectors are pushed into the FAISS index only when their
count matches the document count and the index is still empty. -/
def loadDocuments (st : VectorStoreState) : VectorStoreState :=
  match st.diskDocs with
  | none => st
  | some docs =>
    match st.diskVecs with
    | none => { st with documents := docs }
    | some vecs =>
      if vecs.length = docs.length then
        (if st.indexVecs.isEmpty then
          { st with documents := docs, vectors := vecs, indexVecs := vecs }
        else { st with documents := docs, vectors := vecs })
      else { st with documents := docs, vectors := vecs }

/-- `VectorStore.__init__` (vector_store.py lines 20-42): the singleton FAISS
index may already hold `preIndex` vectors; the in-memory documents and
vectors start empty; then `_load_documents` runs. -/
def vectorStoreInit (dimension : ℕ) (preIndex : List (List ℚ))
    (diskDocs : Option (List (List Char))) (diskVecs : Option (List (List ℚ))) :
    VectorStoreState :=
  loadDocuments
    { indexVecs := preIndex, documents := [], vectors := [], dimension := dimension,
      diskDocs := diskDocs, diskVecs := diskVecs }

/-- One `add_documents` call: its document batch, vector batch, and the
per-vector dimension of the numpy array. -/
structure AddOp where
  docs : List (List Char)
  vecs : List (List ℚ)
  vecsDim : ℕ

/-- A sequence of `add_documents` calls. -/
def applyAddOps (st : VectorStoreState) (ops : List AddOp) : VectorStoreState :=
  ops.foldl (fun s op => addDocuments s op.docs op.vecs op.vecsDim) st

/-! ## TrainingPipeline.process_directory (src/document_processing/training_pipeline.py)

The processed-marker directory is modelled as an association list from file
name to the marker's modification time; `os.path.getmtime` of a marker
written during a run is the wall-clock time `now` of that run.  The
extract/chunk/embed work of `process_file` is abstracted by `chunksOf`
(the number of chunks the file yields, which is also its return value);
what matters for idempotency is the marker logic of lines 78-103 and
180-193. -/

/-- Marker lookup: `processed_marker.exists()` plus `os.path.getmtime`. -/
def lookupMarker (markers : List (List Char × ℕ)) (name : List Char) : Option ℕ :=
  (markers.find? (fun m => m.1 == name)).map (fun m => m.2)

/-- Writing the marker file (lines 180-189) overwrites any previous marker
for the same name; its modification time becomes the current time. -/
def setMarker (markers : List (List Char × ℕ)) (name : List Char) (mtime : ℕ) :
    List (List Char × ℕ) :=
  markers.filter (fun m => !(m.1 == name)) ++ [(name, mtime)]

/-- A source file on disk: name and modification time. -/
structure SourceFile where
  name : List Char
  mtime : ℕ
deriving DecidableEq

/-- The skip test of lines 86-93: skip iff a marker exists and the file's
modification time is not newer than the marker's (`file_mtime <= marker_mtime`). -/
def shouldSkip (markers : List (List Char × ℕ)) (f : SourceFile) : Bool :=
  match lookupMarker markers f.name with
  | none => false
  | some markerMtime => decide (f.mtime ≤ markerMtime)

/-- `TrainingPipeline.process_file` (lines 121-197), success path: returns
the file's chunk count and writes the processed marker at time `now`. -/
def processFile (chunksOf : List Char → ℕ) (now : ℕ) (markers : List (List Char × ℕ))
    (f : SourceFile) : ℕ × List (List Char × ℕ) :=
  (chunksOf f.name, setMarker markers f.name now)

/-- Lines 107-117: process each selected file, summing the returned chunk
counts. -/
def processFilesLoop (chunksOf : List Char → ℕ) (now : ℕ) :
    List SourceFile → List (List Char × ℕ) → ℕ × List (List Char × ℕ)
  | [], markers => (0, markers)
  | f :: rest, markers =>
    let r := processFile chunksOf now markers f
    let rr := processFilesLoop chunksOf now rest r.2
    (r.1 + rr.1, rr.2)

/-- `TrainingPipeline.process_directory` (lines 53-119): return 0 when no
files are found; otherwise filter out already-processed unmodified files
(unless `force_reprocess`), return 0 when nothing is left, and process the
rest. -/
def processDirectory (chunksOf : List Char → ℕ) (files : List SourceFile)
    (markers : List (List Char × ℕ)) (force : Bool) (now : ℕ) :
    ℕ × List (List Char × ℕ) :=
  if files.isEmpty then (0, markers)
  else
    let filesToProcess := if force then files else files.filter (fun f => !shouldSkip markers f)
    if filesToProcess.isEmpty then (0, markers)
    else processFilesLoop chunksOf now filesToProcess markers

/-! ## ChainBuilder.run_chain post-processing and error paths
(src/chain/chain_builder.py) -/

/-- The escalation sentinel of line 306. -/
def escSentinel : List Char := String.toList "[ESCALATE_TO_HR]"

/-- Python substring test `pat in l`. -/
def containsSub (pat l : List Char) : Bool := l.tails.any (fun t => pat.isPrefixOf t)

/-- Fuel-driven helper for `removeSentinel`; the fuel is an upper bound on
the length of the remaining text, so with fuel `l.length` the `0` case with
a non-empty list is never reached. -/
def removeSentinelFuel : ℕ → List Char → List Char
  | _, [] => []
  | 0, l => l
  | fuel + 1, c :: rest =>
    if escSentinel.isPrefixOf (c :: rest) then
      removeSentinelFuel fuel ((c :: rest).drop escSentinel.length)
    else c :: removeSentinelFuel fuel rest

/-- Python `raw.replace("[ESCALATE_TO_HR]", "")` (line 308): remove every
non-overlapping occurrence, scanning left to right. -/
def removeSentinel (l : List Char) : List Char := removeSentinelFuel l.length l

/-- The line-boundary characters of Python `str.splitlines` (besides the
two-character boundary `"\r\n"`). -/
def lineBreakChar (c : Char) : Bool :=
  c == '\n' || c == '\r' || c == '\x0b' || c == '\x0c' || c == '\x1c' ||
  c == '\x1d' || c == '\x1e' || c == '\x85' || c == '\u2028' || c == '\u2029'

/-- Helper for `pySplitlines` on a non-empty remainder. -/
def pySplitlinesAux : List Char → List (List Char)
  | [] => [[]]
  | '\r' :: '\n' :: rest => [] :: (if rest.isEmpty then [] else pySplitlinesAux rest)
  | c :: rest =>
    if lineBreakChar c then [] :: (if rest.isEmpty then [] else pySplitlinesAux rest)
    else (pySplitlinesAux rest).modifyHead (c :: ·)

/-- Python `str.splitlines()`: a trailing line boundary does not produce an
extra empty line, and the empty string yields no lines. -/
def pySplitlines (l : List Char) : List (List Char) :=
  if l.isEmpty then [] else pySplitlinesAux l

/-- The heading keywords of `format_response` (chain_builder.py lines 117-127). -/
def headingKeywords : List (List Char) :=
  [String.toList "What is", String.toList "Causes of", String.toList "Symptoms of",
    String.toList "Types of", String.toList "Transmission of", String.toList "Prevention of"]

/-- `any(para.startswith(keyword) for keyword in ...)`. -/
def startsWithAnyKeyword (p : List Char) : Bool :=
  headingKeywords.any (fun kw => kw.isPrefixOf p)

/-- One conjunct of the bullet test of line 131: a blank line passes the
`if line.strip()` filter; otherwise the stripped line must start with `-`
or `*`. -/
def bulletLine (l : List Char) : Bool :=
  match pyStrip l with
  | [] => true
  | c :: _ => c == '-' || c == '*'

/-- `all(line.strip().startswith(("-", "*")) for line in lines if line.strip())`. -/
def allBulletLines (lines : List (List Char)) : Bool := lines.all bulletLine

/-- The numbered-list test of lines 135-138,
`all(line.strip()[0].isdigit() and line.strip()[1] == "." for line in lines
if line.strip())`, evaluated left to right; `none` models the `IndexError`
raised when a stripped line is a single digit character (so that `[1]` is out
of range).  `Char.isDigit` models Python's `str.isdigit` on the ASCII digits
(Python also accepts some further Unicode digit characters). -/
def numberedCheck : List (List Char) → Option Bool
  | [] => some true
  | l :: ls =>
    match pyStrip l with
    | [] => numberedCheck ls
    | [c] => if c.isDigit then none else some false
    | c :: c2 :: _ =>
      if c.isDigit then (if c2 == '.' then numberedCheck ls else some false)
      else some false

/-- The per-paragraph body of `format_response` (lines 113-143): the list of
entries appended to `formatted_output` for one paragraph, or `none` when the
numbered-list test raises. -/
def formatPara (p : List Char) : Option (List (List Char)) :=
  let lines := pySplitlines p
  if startsWithAnyKeyword p then some [String.toList "### " ++ p]
  else if allBulletLines lines then some (lines.map pyStrip)
  else
    match numberedCheck lines with
    | none => none
    | some true => some lines
    | some false => some [p]

/-- `ChainBuilder.format_response` (chain_builder.py lines 98-145), or `none`
when it raises (the caller then falls back to the unformatted text). -/
def formatResponse (text : List Char) : Option (List Char) := do
  let pieces ← (splitOnNl2 text).mapM formatPara
  return List.intercalate ['\n', '\n'] pieces.flatten

/-- The escalation confirmation message appended at lines 311-313. -/
def confirmationMessage : List Char :=
  String.toList "\n\n**Would you like me to escalate this question to the HR team?** They can provide a more specific answer to your question."

/-- Lines 305-313 of run_chain: if the sentinel occurs in the raw answer it
is removed everywhere and the result stripped; when email escalation is
enabled and an HR destination exists, the confirmation suffix is appended. -/
def postProcessAnswer (enableEscalation : Bool) (hrEmails : List (List Char))
    (raw : List Char) : List Char :=
  if containsSub escSentinel raw then
    let base := pyStrip (removeSentinel raw)
    if enableEscalation && !hrEmails.isEmpty then base ++ confirmationMessage else base
  else raw

/-- Lines 305-322 of run_chain: the final content (formatted, falling back
to the unformatted answer when `format_response` raises) paired with the
`escalated` flag. -/
def postProcess (enableEscalation : Bool) (hrEmails : List (List Char))
    (raw : List Char) : List Char × Bool :=
  ((formatResponse (postProcessAnswer enableEscalation hrEmails raw)).getD
      (postProcessAnswer enableEscalation hrEmails raw),
    containsSub escSentinel raw)

/-- An exception raised by the LLM call (or prompt construction): Python
class name and message. -/
structure LlmFailure where
  etype : List Char
  msg : List Char
deriving DecidableEq

/-- The response dictionary returned by `run_chain`; fields absent from a
given Python return dictionary are `none`. -/
structure TurnRecord where
  content : List Char
  language : List Char
  sources : List SourceInfo
  escalated : Option Bool
  errType : Option (List Char)
  errMsg : Option (List Char)
  errRetryAttempted : Option Bool
deriving DecidableEq

/-- Python `str.lower()` (ASCII as used by the error messages involved). -/
def pyToLower (l : List Char) : List Char := l.map Char.toLower

/-- `ChainBuilder._get_error_message` (chain_builder.py lines 366-418). -/
def getErrorMessage (errorType errorMsg : List Char) : List Char :=
  let errorStr := pyToLower errorMsg
  if containsSub (String.toList "timeout") errorStr || errorType == String.toList "TimeoutError" then
    String.toList "The request took too long to process. This might be due to a complex query or temporary service issues."
  else if containsSub (String.toList "api key") errorStr ||
      containsSub (String.toList "authentication") errorStr then
    String.toList "There was an issue with the API authentication. Please check the API key configuration."
  else if containsSub (String.toList "rate limit") errorStr ||
      containsSub (String.toList "too many requests") errorStr then
    String.toList "The service is currently experiencing high demand. Please try again in a few moments."
  else if containsSub (String.toList "connection") errorStr ||
      containsSub (String.toList "network") errorStr then
    String.toList "There was a network connection issue. Please check your internet connection and try again."
  else if containsSub (String.toList "model") errorStr &&
      containsSub (String.toList "not found") errorStr then
    String.toList "The specified language model is not available. Please check the model configuration."
  else if containsSub (String.toList "context length") errorStr ||
      containsSub (String.toList "token limit") errorStr then
    String.toList "The query is too long or complex. Please try breaking it down into smaller parts."
  else if containsSub (String.toList "invalid request") errorStr then
    String.toList "The request could not be processed. Please check your input and try again."
  else if containsSub (String.toList "service unavailable") errorStr then
    String.toList "The language model service is currently unavailable. Please try again later."
  else
    String.toList "I'm sorry, I encountered an error while processing your request. Please try again."

/-- The environment of one `run_chain` call: the cache answer, the health
probe result, the outcomes of the absorbed analysis sub-steps, the context
bundle, whether prompt construction raises, and the escalation settings. -/
structure ChainEnv where
  cachedResult : Option TurnRecord
  groqOperational : Bool
  language : List Char
  intent : List Char
  intentConfidence : ℚ
  entities : List (List Char)
  contextText : List Char
  contextSources : List SourceInfo
  promptFailure : Option LlmFailure
  enableEscalation : Bool
  hrEmails : List (List Char)

/-- `ChainBuilder.run_chain` (chain_builder.py lines 147-364).  `llm` maps an
attempt number to the outcome of `self.llm.invoke`; the returned list records
which attempts were actually invoked (run_chain performs at most the single
call `llm retryCount`).  On a generation failure the function returns at
lines 293-303 with content `"[LLM ERROR] " + str(e)`; `_get_error_message`
is reached only through the outer handler (lines 347-364), e.g. when prompt
construction raises. -/
def runChain (env : ChainEnv) (llm : ℕ → Except LlmFailure (List Char)) (retryCount : ℕ) :
    TurnRecord × List ℕ :=
  match env.cachedResult with
  | some cached => (cached, [])
  | none =>
    if !env.groqOperational then
      ({ content := String.toList "I'm sorry, but our language model service is currently experiencing issues. Please try again in a few minutes.",
          language := String.toList "en", sources := [], escalated := none,
          errType := some (String.toList "ServiceUnavailable"),
          errMsg := some (String.toList "Groq API is not operational"),
          errRetryAttempted := none }, [])
    else
      match env.promptFailure with
      | some f =>
        ({ content := getErrorMessage f.etype f.msg, language := String.toList "en",
            sources := [], escalated := none, errType := some f.etype, errMsg := some f.msg,
            errRetryAttempted := some (decide (0 < retryCount)) }, [])
      | none =>
        match llm retryCount with
        | Except.error e =>
          ({ content := String.toList "[LLM ERROR] " ++ e.msg,
              language := String.toList "en", sources := [], escalated := none,
              errType := some e.etype, errMsg := some e.msg,
              errRetryAttempted := some (decide (0 < retryCount)) }, [retryCount])
        | Except.ok raw =>
          ({ content := (postProcess env.enableEscalation env.hrEmails raw).1,
              language := env.language, sources := env.contextSources,
              escalated := some (postProcess env.enableEscalation env.hrEmails raw).2,
              errType := none, errMsg := none, errRetryAttempted := none }, [retryCount])

/-- The environment for the C3 scenario: cache miss, healthy service, all
analysis stages succeeding, empty context, no prompt failure. -/
def c3Env : ChainEnv :=
  { cachedResult := none, groqOperational := true, language := String.toList "en",
    intent := String.toList "unknown", intentConfidence := 0, entities := [],
    contextText := [], contextSources := [], promptFailure := none,
    enableEscalation := false, hrEmails := [] }

/-- An LLM oracle that fails with a transient-looking timeout error on
attempt 0 and would succeed on every later attempt. -/
def c3Oracle : ℕ → Except LlmFailure (List Char)
  | 0 => Except.error
      ⟨String.toList "TimeoutError", String.toList "Request timeout: connection timed out"⟩
  | _ + 1 => Except.ok (String.toList "Hello")

/-! ## Lemmas about the Python string primitives -/

theorem rstrip_eq_rdropWhile (l : List Char) : rstrip l = List.rdropWhile pyIsSpace l := rfl

theorem length_lstrip_le (l : List Char) : (lstrip l).length ≤ l.length :=
  List.IsSuffix.length_le (List.dropWhile_suffix pyIsSpace)

theorem length_rstrip_le (l : List Char) : (rstrip l).length ≤ l.length :=
  List.IsPrefix.length_le (rstrip_eq_rdropWhile l ▸ List.rdropWhile_prefix pyIsSpace l)

theorem length_pyStrip_le (l : List Char) : (pyStrip l).length ≤ l.length :=
  le_trans (length_lstrip_le _) (length_rstrip_le _)

theorem lstrip_suffix (l : List Char) : lstrip l <:+ l := List.dropWhile_suffix pyIsSpace

theorem rstrip_pre (l : List Char) : rstrip l <+: l :=
  rstrip_eq_rdropWhile l ▸ List.rdropWhile_prefix pyIsSpace l

theorem pyStrip_infix_self (l : List Char) : pyStrip l <:+: l :=
  List.IsInfix.trans (List.IsSuffix.isInfix (lstrip_suffix (rstrip l)))
    (List.IsPrefix.isInfix (rstrip_pre l))

theorem rstrip_append_allWs (x t : List Char) (h : ∀ c ∈ t, pyIsSpace c = true) :
    rstrip (x ++ t) = rstrip x := by
  unfold rstrip
  rw [List.reverse_append, List.dropWhile_append,
    List.isEmpty_iff.mpr (List.dropWhile_eq_nil_iff.mpr (fun c hc => h c (List.mem_reverse.mp hc))),
    if_pos rfl]

theorem pyStrip_append_nl2 (x : List Char) : pyStrip (x ++ ['\n', '\n']) = pyStrip x := by
  unfold pyStrip
  rw [rstrip_append_allWs x ['\n', '\n'] (by decide)]

theorem getLast_of_suffix {s l : List Char} (hs : s <:+ l) (h : s ≠ []) (h' : l ≠ []) :
    s.getLast h = l.getLast h' := by
  obtain ⟨t, rfl⟩ := hs
  exact (List.getLast_append_of_ne_nil h).symm

theorem rstrip_last_not (l : List Char) (h : rstrip l ≠ []) :
    ¬(pyIsSpace ((rstrip l).getLast h) = true) :=
  List.rdropWhile_last_not pyIsSpace l h

theorem lstrip_head_not (l : List Char) (h : lstrip l ≠ []) :
    ¬(pyIsSpace ((lstrip l).head h) = true) := by
  simpa using List.head_dropWhile_not pyIsSpace l h

theorem rstrip_eq_self_of_last (l : List Char) (h : l ≠ [])
    (hc : ¬(pyIsSpace (l.getLast h) = true)) : rstrip l = l := by
  rw [rstrip_eq_rdropWhile]
  exact List.rdropWhile_eq_self_iff.mpr (fun _ => hc)

theorem lstrip_eq_self_of_head (l : List Char) (h : l ≠ [])
    (hc : ¬(pyIsSpace (l.head h) = true)) : lstrip l = l := by
  unfold lstrip
  cases l with
  | nil => rfl
  | cons a t =>
    rw [List.dropWhile_cons]
    simp only [List.head_cons] at hc
    simp [hc]

theorem pyStrip_last_not (l : List Char) (h : pyStrip l ≠ []) :
    ¬(pyIsSpace ((pyStrip l).getLast h) = true) := by
  have hr : rstrip l ≠ [] := by
    intro hc
    apply h
    unfold pyStrip
    rw [hc]; rfl
  have hlast : (pyStrip l).getLast h = (rstrip l).getLast hr :=
    getLast_of_suffix (lstrip_suffix (rstrip l)) h hr
  rw [hlast]
  exact rstrip_last_not l hr

theorem rstrip_pyStrip (l : List Char) : rstrip (pyStrip l) = pyStrip l := by
  by_cases h : pyStrip l = []
  · rw [h]; rfl
  · exact rstrip_eq_self_of_last _ h (pyStrip_last_not l h)

theorem lstrip_pyStrip (l : List Char) : lstrip (pyStrip l) = pyStrip l := by
  unfold pyStrip lstrip
  exact List.dropWhile_idempotent pyIsSpace (rstrip l)

theorem pyStrip_idem (l : List Char) : pyStrip (pyStrip l) = pyStrip l := by
  show lstrip (rstrip (pyStrip l)) = pyStrip l
  rw [rstrip_pyStrip]
  exact lstrip_pyStrip l

theorem pyStrip_head_not (l : List Char) (h : pyStrip l ≠ []) :
    ¬(pyIsSpace ((pyStrip l).head h) = true) :=
  lstrip_head_not (rstrip l) h

theorem rstrip_decomp (l : List Char) :
    ∃ t, l = rstrip l ++ t ∧ ∀ c ∈ t, pyIsSpace c = true := by
  refine ⟨(l.reverse.takeWhile pyIsSpace).reverse, ?_, ?_⟩
  · unfold rstrip
    rw [← List.reverse_append, List.takeWhile_append_dropWhile, List.reverse_reverse]
  · intro c hc
    rw [List.mem_reverse] at hc
    exact List.mem_takeWhile_imp hc

theorem pyStrip_eq_nil_iff (l : List Char) :
    pyStrip l = [] ↔ ∀ c ∈ l, pyIsSpace c = true := by
  constructor
  · intro h c hc
    by_contra hcw
    obtain ⟨t, hdecomp, ht⟩ := rstrip_decomp l
    have : c ∈ rstrip l ++ t := hdecomp ▸ hc
    rcases List.mem_append.mp this with hm | hm
    · exact hcw (List.dropWhile_eq_nil_iff.mp h c hm)
    · exact hcw (ht c hm)
  · intro h
    have : rstrip l = [] := by
      rw [rstrip_eq_rdropWhile]
      exact List.rdropWhile_eq_nil_iff.mpr h
    unfold pyStrip
    rw [this]; rfl

theorem pyStrip_ne_nil_of_ink (l : List Char) (h : HasInk l) : pyStrip l ≠ [] := by
  intro hc
  obtain ⟨c, hcl, hcw⟩ := h
  exact hcw (pyStrip_eq_nil_iff l |>.mp hc c hcl)

theorem hasInk_of_stripped (l : List Char) (hs : pyStrip l = l) (h : l ≠ []) : HasInk l := by
  by_contra hc
  apply h
  rw [← hs]
  rw [pyStrip_eq_nil_iff]
  intro c hcl
  by_contra hcw
  exact hc ⟨c, hcl, hcw⟩

theorem lstrip_append_of_ink (a b : List Char) (h : HasInk a) :
    lstrip (a ++ b) = lstrip a ++ b := by
  unfold lstrip
  rw [List.dropWhile_append]
  have : ¬(List.dropWhile pyIsSpace a).isEmpty = true := by
    rw [List.isEmpty_iff]
    intro hnil
    obtain ⟨c, hcl, hcw⟩ := h
    exact hcw (List.dropWhile_eq_nil_iff.mp hnil c hcl)
  simp [this]

theorem rstrip_append_right (a c : List Char) (h : c ≠ [])
    (hc : ¬(pyIsSpace (c.getLast h) = true)) : rstrip (a ++ c) = a ++ c := by
  refine rstrip_eq_self_of_last _ (by simp [h]) ?_
  rwa [List.getLast_append_of_ne_nil h]

/-! ## Chunk-size bound (claim C4) -/

theorem length_pyStrip_take_le (l : List Char) (n : ℕ) :
    (pyStrip (l.take n)).length ≤ n :=
  le_trans (length_pyStrip_le _) (by simp [List.length_take])

theorem forceSplitParagraph_length_le (chunkSize chunkOverlap : ℕ) (para c : List Char)
    (hc : c ∈ forceSplitParagraph chunkSize chunkOverlap para) : c.length ≤ chunkSize := by
  unfold forceSplitParagraph at hc
  obtain ⟨i, _, rfl⟩ := List.mem_map.mp hc
  exact length_pyStrip_take_le _ _

theorem packParagraphs_length_le (chunkSize chunkOverlap : ℕ) (ps : List (List Char))
    (cur : List Char)
    (hinv : cur = [] ∨ ∃ x, cur = x ++ ['\n', '\n'] ∧ x.length ≤ chunkSize) :
    ∀ c ∈ packParagraphs chunkSize chunkOverlap ps cur, c.length ≤ chunkSize := by
  induction ps generalizing cur with
  | nil =>
    intro c hc
    unfold packParagraphs at hc
    by_cases hcur : cur.isEmpty = true
    · simp [hcur] at hc
    · rw [if_neg hcur] at hc
      have hce := List.mem_singleton.mp hc
      subst hce
      rcases hinv with rfl | ⟨x, rfl, hx⟩
      · simp at hcur
      · rw [pyStrip_append_nl2]
        exact le_trans (length_pyStrip_le x) hx
  | cons para rest ih =>
    intro c hc
    unfold packParagraphs at hc
    by_cases hfit : cur.length + para.length + 2 ≤ chunkSize
    · rw [if_pos hfit] at hc
      refine ih (cur ++ para ++ ['\n', '\n']) ?_ c hc
      right
      exact ⟨cur ++ para, by simp, by simpa [Nat.add_assoc] using le_trans (by omega) hfit⟩
    · rw [if_neg hfit] at hc
      rcases List.mem_append.mp hc with hflush | hrest
      · by_cases hcur : cur.isEmpty = true
        · simp [hcur] at hflush
        · rw [if_neg hcur] at hflush
          have hce := List.mem_singleton.mp hflush
          subst hce
          rcases hinv with rfl | ⟨x, rfl, hx⟩
          · simp at hcur
          · rw [pyStrip_append_nl2]
            exact le_trans (length_pyStrip_le x) hx
      · by_cases hbig : chunkSize < para.length
        · rw [if_pos hbig] at hrest
          rcases List.mem_append.mp hrest with hforce | hrec
          · exact forceSplitParagraph_length_le _ _ _ _ hforce
          · exact ih [] (Or.inl rfl) c hrec
        · rw [if_neg hbig] at hrest
          refine ih (para ++ ['\n', '\n']) ?_ c hrest
          right
          exact ⟨para, by simp, by omega⟩

theorem takeRight_length_le (n : ℕ) (l : List Char) : (takeRight n l).length ≤ n := by
  unfold takeRight
  rw [List.length_drop]
  omega

theorem applyOverlapAux_length_le (chunkOverlap : ℕ) (includeOverlap : Bool) (bound : ℕ)
    (prev : List Char) (cs : List (List Char)) (hcs : ∀ c ∈ cs, c.length ≤ bound) :
    ∀ c ∈ applyOverlapAux chunkOverlap includeOverlap prev cs,
      c.length ≤ bound + chunkOverlap := by
  induction cs generalizing prev with
  | nil => intro c hc; simp [applyOverlapAux] at hc
  | cons a t ih =>
    intro c hc
    unfold applyOverlapAux at hc
    rcases List.mem_cons.mp hc with rfl | ht
    · have h2 := hcs a (by simp)
      split
      · split
        · refine le_trans (length_pyStrip_le _) ?_
          rw [List.length_append]
          have h1 := takeRight_length_le chunkOverlap prev
          omega
        · exact le_trans (le_trans (length_pyStrip_le a) h2) (by omega)
      · exact le_trans (le_trans (length_pyStrip_le a) h2) (by omega)
    · exact ih a (fun c hc => hcs c (by simp [hc])) c ht

/-- C4 (amended): for every input text and configuration with
`chunk_size > chunk_overlap ≥ 0`, every chunk produced by
`TextChunker._split_text` — the force-split chunks included — has length at
most `chunk_size + chunk_overlap`. -/
theorem c4_chunk_size_bound (chunkSize chunkOverlap : ℕ) (includeOverlap : Bool)
    (text : List Char) (hco : chunkOverlap < chunkSize) :
    ∀ c ∈ splitText chunkSize chunkOverlap includeOverlap text,
      c.length ≤ chunkSize + chunkOverlap := by
  intro c hc
  unfold splitText applyOverlap at hc
  have hpacked := packParagraphs_length_le chunkSize chunkOverlap
    (normalizeParagraphs text) [] (Or.inl rfl)
  revert hc
  cases hpk : packParagraphs chunkSize chunkOverlap (normalizeParagraphs text) [] with
  | nil => intro hc; simp at hc
  | cons p0 ptl =>
    intro hc
    rw [hpk] at hpacked
    rcases List.mem_cons.mp hc with rfl | ht
    · exact le_trans (le_trans (length_pyStrip_le p0) (hpacked p0 (by simp))) (by omega)
    · exact applyOverlapAux_length_le chunkOverlap includeOverlap chunkSize p0 ptl
        (fun c hc => hpacked c (by simp [hc])) c ht

/-- C4 (counterexample to the claim as stated): with `chunk_size = 5`,
`chunk_overlap = 2` and the single oversized paragraph `"abcdefg"`, every
chunk comes from the force-split branch (lines 76-78 of text_chunker.py), yet
the output chunk lengths are `[5, 6, 3]`: the second and third force-split
chunks do not have length exactly `chunk_size = 5` (the second exceeds it
because of the overlap prefix added in step 2; the third is the short final
stride further shortened by overlap and strip). -/
theorem c4_counterexample :
    (splitText 5 2 true (String.toList "abcdefg")).map List.length = [5, 6, 3] ∧
      ¬((6 : ℕ) = 5) ∧ ¬((3 : ℕ) = 5) := by
  decide

/-- C4 witness: the amended bound instantiated at the counterexample input;
every chunk length is at most `5 + 2 = 7`. -/
theorem c4_chunk_size_bound_witness :
    (2 : ℕ) < 5 ∧ ∀ c ∈ splitText 5 2 true (String.toList "abcdefg"), c.length ≤ 5 + 2 :=
  ⟨by decide, c4_chunk_size_bound 5 2 true (String.toList "abcdefg") (by decide)⟩

/-! ## Overlap continuity (claim C5) -/

theorem stripped_last_not (l : List Char) (hs : pyStrip l = l) (h : l ≠ []) :
    ¬(pyIsSpace (l.getLast h) = true) := by
  have h' : pyStrip l ≠ [] := by rw [hs]; exact h
  have e1 : (pyStrip l).getLast? = some ((pyStrip l).getLast h') :=
    List.getLast?_eq_getLast _ h'
  have e2 : l.getLast? = some (l.getLast h) := List.getLast?_eq_getLast _ h
  have e3 : (pyStrip l).getLast? = l.getLast? := by rw [hs]
  have e4 : (pyStrip l).getLast h' = l.getLast h := by
    have := e1.symm.trans (e3.trans e2)
    exact Option.some.inj this
  have := pyStrip_last_not l h'
  rwa [e4] at this

theorem stripped_head_not (l : List Char) (hs : pyStrip l = l) (h : l ≠ []) :
    ¬(pyIsSpace (l.head h) = true) := by
  have h' : pyStrip l ≠ [] := by rw [hs]; exact h
  have e1 : (pyStrip l).head? = some ((pyStrip l).head h') := List.head?_eq_head h'
  have e2 : l.head? = some (l.head h) := List.head?_eq_head h
  have e3 : (pyStrip l).head? = l.head? := by rw [hs]
  have e4 : (pyStrip l).head h' = l.head h := Option.some.inj (e1.symm.trans (e3.trans e2))
  have := pyStrip_head_not l h'
  rwa [e4] at this

theorem noWsRun_suffix {l s : List Char} (h : NoWsRun l) (hs : s <:+ l) : NoWsRun s :=
  List.Chain'.suffix h hs

theorem noWsRun_pre {l s : List Char} (h : NoWsRun l) (hs : s <+: l) : NoWsRun s :=
  List.Chain'.prefix h hs

theorem noWsRun_take {l : List Char} (h : NoWsRun l) (n : ℕ) : NoWsRun (l.take n) :=
  noWsRun_pre h (List.take_prefix n l)

theorem noWsRun_pyStrip {l : List Char} (h : NoWsRun l) : NoWsRun (pyStrip l) :=
  noWsRun_suffix (noWsRun_pre h (rstrip_pre l)) (lstrip_suffix (rstrip l))

theorem collapseAux_head_true (l : List Char) :
    ∀ c, (collapseAux true l).head? = some c → pyIsSpace c = false := by
  induction l with
  | nil => intro c hc; simp [collapseAux] at hc
  | cons a t ih =>
    intro c hc
    unfold collapseAux at hc
    by_cases ha : pyIsSpace a = true
    · rw [if_pos ha] at hc
      exact ih c hc
    · rw [if_neg ha] at hc
      simp only [List.head?_cons, Option.some.injEq] at hc
      subst hc
      exact Bool.not_eq_true _ ▸ Bool.of_not_eq_true ha

theorem noWsRun_collapseAux (l : List Char) : ∀ b, NoWsRun (collapseAux b l) := by
  induction l with
  | nil => intro b; unfold collapseAux NoWsRun; exact List.chain'_nil
  | cons a t ih =>
    intro b
    unfold collapseAux
    by_cases ha : pyIsSpace a = true
    · rw [if_pos ha]
      cases b with
      | true => exact ih true
      | false =>
        rw [if_neg (Bool.false_ne_true)]
        refine List.chain'_cons'.mpr ⟨?_, ih true⟩
        intro y hy
        exact Or.inr (collapseAux_head_true t y hy)
    · rw [if_neg ha]
      refine List.chain'_cons'.mpr ⟨?_, ih false⟩
      intro y _
      exact Or.inl (Bool.of_not_eq_true ha)

theorem hasInk_collapseAux (l : List Char) (b : Bool) (h : HasInk l) :
    HasInk (collapseAux b l) := by
  induction l generalizing b with
  | nil => obtain ⟨c, hc, _⟩ := h; simp at hc
  | cons a t ih =>
    unfold collapseAux
    by_cases ha : pyIsSpace a = true
    · have ht : HasInk t := by
        obtain ⟨c, hc, hcw⟩ := h
        rcases List.mem_cons.mp hc with rfl | hct
        · exact absurd ha hcw
        · exact ⟨c, hct, hcw⟩
      rw [if_pos ha]
      cases b with
      | true => exact ih true ht
      | false =>
        rw [if_neg (Bool.false_ne_true)]
        obtain ⟨c, hc, hcw⟩ := ih true ht
        exact ⟨c, List.mem_cons_of_mem _ hc, hcw⟩
    · rw [if_neg ha]
      exact ⟨a, List.mem_cons_self a _, ha⟩

theorem normalizeParagraphs_spec (text : List Char) :
    ∀ p ∈ normalizeParagraphs text, pyStrip p = p ∧ p ≠ [] ∧ NoWsRun p := by
  intro p hp
  unfold normalizeParagraphs at hp
  obtain ⟨q, hq, rfl⟩ := List.mem_map.mp hp
  have hqs : pyStrip q ≠ [] := by
    have := (List.mem_filter.mp hq).2
    simpa [List.isEmpty_iff] using this
  have hink : HasInk q := by
    by_contra hc
    apply hqs
    rw [pyStrip_eq_nil_iff]
    intro c hcl
    by_contra hcw
    exact hc ⟨c, hcl, hcw⟩
  refine ⟨pyStrip_idem _, ?_, ?_⟩
  · exact pyStrip_ne_nil_of_ink _ (hasInk_collapseAux q false hink)
  · exact noWsRun_pyStrip (noWsRun_collapseAux q false)

theorem strideStarts_lt (n s : ℕ) (hs : 0 < s) : ∀ i ∈ strideStarts n s, i < n := by
  intro i hi
  unfold strideStarts at hi
  obtain ⟨j, hj, rfl⟩ := List.mem_map.mp hi
  rw [List.mem_range] at hj
  have h1 : j + 1 ≤ (n + s - 1) / s := hj
  have h2 : (j + 1) * s ≤ n + s - 1 := (Nat.le_div_iff_mul_le hs).mp h1
  have h3 : (j + 1) * s = j * s + s := by ring
  have h4 : 1 ≤ (n + s - 1) / s := le_trans (by omega) h1
  have h5 : 1 * s ≤ n + s - 1 := (Nat.le_div_iff_mul_le hs).mp h4
  omega

theorem forceSplitParagraph_spec (chunkSize chunkOverlap : ℕ) (p : List Char)
    (hco : chunkOverlap < chunkSize) (hcs2 : 2 ≤ chunkSize)
    (hstr : pyStrip p = p) (hne : p ≠ []) (hnr : NoWsRun p) :
    ∀ c ∈ forceSplitParagraph chunkSize chunkOverlap p, pyStrip c = c ∧ c ≠ [] := by
  intro c hc
  unfold forceSplitParagraph at hc
  obtain ⟨i, hi, rfl⟩ := List.mem_map.mp hc
  have hilt : i < p.length := strideStarts_lt p.length (chunkSize - chunkOverlap)
    (by omega) i hi
  refine ⟨pyStrip_idem _, ?_⟩
  set l := p.drop i with hl
  have hlne : l ≠ [] := by
    have : l.length = p.length - i := List.length_drop i p
    intro hnil
    rw [hnil] at this
    simp at this
    omega
  have hlsuffix : l <:+ p := List.drop_suffix i p
  apply pyStrip_ne_nil_of_ink
  by_cases hlen : l.length ≤ chunkSize
  · rw [List.take_of_length_le hlen]
    have hlast : l.getLast hlne = p.getLast hne := getLast_of_suffix hlsuffix hlne hne
    exact ⟨l.getLast hlne, List.getLast_mem hlne, hlast ▸ stripped_last_not p hstr hne⟩
  · have htl : (l.take chunkSize).length = chunkSize := by
      rw [List.length_take]
      omega
    have hnr2 : NoWsRun (l.take chunkSize) := noWsRun_take (noWsRun_suffix hnr hlsuffix) _
    rcases htt : l.take chunkSize with _ | ⟨a, _ | ⟨b, t2⟩⟩
    · rw [htt] at htl; simp at htl; omega
    · rw [htt] at htl; simp at htl; omega
    · rw [htt] at hnr2
      have hrel := (List.chain'_cons'.mp hnr2).1 b (by simp)
      rcases hrel with hA | hB
      · exact ⟨a, by simp, by simp [hA]⟩
      · exact ⟨b, by simp, by simp [hB]⟩

theorem packParagraphs_spec (chunkSize chunkOverlap : ℕ)
    (hco : chunkOverlap < chunkSize) (hcs2 : 2 ≤ chunkSize)
    (ps : List (List Char)) (hps : ∀ p ∈ ps, pyStrip p = p ∧ p ≠ [] ∧ NoWsRun p)
    (cur : List Char) (hcur : cur = [] ∨ HasInk cur) :
    ∀ c ∈ packParagraphs chunkSize chunkOverlap ps cur, pyStrip c = c ∧ c ≠ [] := by
  induction ps generalizing cur with
  | nil =>
    intro c hc
    unfold packParagraphs at hc
    by_cases hce : cur.isEmpty = true
    · simp [hce] at hc
    · rw [if_neg hce] at hc
      have hcc := List.mem_singleton.mp hc
      subst hcc
      rcases hcur with rfl | hink
      · simp at hce
      · exact ⟨pyStrip_idem _, pyStrip_ne_nil_of_ink _ hink⟩
  | cons para rest ih =>
    intro c hc
    have hpara := hps para (by simp)
    have hink : HasInk para := hasInk_of_stripped para hpara.1 hpara.2.1
    have hrest : ∀ p ∈ rest, pyStrip p = p ∧ p ≠ [] ∧ NoWsRun p :=
      fun p hp => hps p (by simp [hp])
    unfold packParagraphs at hc
    by_cases hfit : cur.length + para.length + 2 ≤ chunkSize
    · rw [if_pos hfit] at hc
      refine ih hrest (cur ++ para ++ ['\n', '\n']) ?_ c hc
      right
      obtain ⟨x, hx, hxw⟩ := hink
      exact ⟨x, by simp [hx], hxw⟩
    · rw [if_neg hfit] at hc
      rcases List.mem_append.mp hc with hflush | hrest2
      · by_cases hce : cur.isEmpty = true
        · simp [hce] at hflush
        · rw [if_neg hce] at hflush
          have hcc := List.mem_singleton.mp hflush
          subst hcc
          rcases hcur with rfl | hinkc
          · simp at hce
          · exact ⟨pyStrip_idem _, pyStrip_ne_nil_of_ink _ hinkc⟩
      · by_cases hbig : chunkSize < para.length
        · rw [if_pos hbig] at hrest2
          rcases List.mem_append.mp hrest2 with hforce | hrec
          · exact forceSplitParagraph_spec chunkSize chunkOverlap para hco hcs2
              hpara.1 hpara.2.1 hpara.2.2 c hforce
          · exact ih hrest [] (Or.inl rfl) c hrec
        · rw [if_neg hbig] at hrest2
          refine ih hrest (para ++ ['\n', '\n']) ?_ c hrest2
          right
          obtain ⟨x, hx, hxw⟩ := hink
          exact ⟨x, by simp [hx], hxw⟩

theorem takeRight_suffix (n : ℕ) (l : List Char) : takeRight n l <:+ l :=
  List.drop_suffix _ l

theorem takeRight_ne_nil (n : ℕ) (l : List Char) (hn : 0 < n) (hl : l ≠ []) :
    takeRight n l ≠ [] := by
  unfold takeRight
  intro hc
  have h1 := List.length_drop (l.length - n) l
  rw [hc] at h1
  simp at h1
  have h2 : 0 < l.length := List.length_pos.mpr hl
  omega

theorem pyStrip_overlap_append (k : ℕ) (hk : 0 < k) (prev c : List Char)
    (hps : pyStrip prev = prev) (hpne : prev ≠ [])
    (hcs : pyStrip c = c) (hcne : c ≠ []) :
    pyStrip (takeRight k prev ++ c) = lstrip (takeRight k prev) ++ c := by
  set o := takeRight k prev with ho
  have hone : o ≠ [] := takeRight_ne_nil k prev hk hpne
  have holast : o.getLast hone = prev.getLast hpne :=
    getLast_of_suffix (takeRight_suffix k prev) hone hpne
  have holast_ws : ¬(pyIsSpace (o.getLast hone) = true) :=
    holast ▸ stripped_last_not prev hps hpne
  have hink : HasInk o := ⟨o.getLast hone, List.getLast_mem hone, holast_ws⟩
  unfold pyStrip
  rw [rstrip_append_right o c hcne (stripped_last_not c hcs hcne)]
  exact lstrip_append_of_ink o c hink

theorem applyOverlapAux_getD (k : ℕ) (hk : 0 < k) (cells : List (List Char))
    (prev : List Char) (hprev : pyStrip prev = prev ∧ prev ≠ [])
    (hcells : ∀ c ∈ cells, pyStrip c = c ∧ c ≠ []) :
    ∀ i, i < cells.length →
      (applyOverlapAux k true prev cells).getD i [] =
        lstrip (takeRight k ((prev :: cells).getD i [])) ++ cells.getD i [] := by
  induction cells generalizing prev with
  | nil => intro i hi; simp at hi
  | cons a t ih =>
    intro i hi
    have ha := hcells a (by simp)
    unfold applyOverlapAux
    cases i with
    | zero =>
      simp only [List.getD_cons_zero]
      rw [if_pos hk]
      exact pyStrip_overlap_append k hk prev a hprev.1 hprev.2 ha.1 ha.2
    | succ j =>
      simp only [List.getD_cons_succ]
      exact ih a ha (fun c hc => hcells c (by simp [hc])) j (by simpa using hi)

/-- C5 (amended): with overlap inclusion enabled and
`0 < chunk_overlap < chunk_size`, for every `i`, chunk `i+1` of
`TextChunker._split_text` equals the last `chunk_overlap` characters of the
`i`-th *pre-overlap* chunk — with their leading whitespace removed by the
final `strip()` — followed by the `(i+1)`-th pre-overlap chunk.  In
particular chunk `i+1` starts with the whitespace-stripped overlap, but not
in general with the raw overlap, and the overlap is taken from the
pre-overlap chunk list, not from the emitted chunk `i`. -/
theorem c5_overlap_continuity (text : List Char) (chunkSize chunkOverlap : ℕ)
    (hk : 0 < chunkOverlap) (hck : chunkOverlap < chunkSize) (i : ℕ)
    (hi : i + 1 < (packParagraphs chunkSize chunkOverlap (normalizeParagraphs text) []).length) :
    (splitText chunkSize chunkOverlap true text).getD (i + 1) [] =
      lstrip (takeRight chunkOverlap
        ((packParagraphs chunkSize chunkOverlap (normalizeParagraphs text) []).getD i [])) ++
      (packParagraphs chunkSize chunkOverlap (normalizeParagraphs text) []).getD (i + 1) [] := by
  have hspec := packParagraphs_spec chunkSize chunkOverlap hck (by omega)
    (normalizeParagraphs text) (normalizeParagraphs_spec text) [] (Or.inl rfl)
  unfold splitText applyOverlap
  revert hi hspec
  cases hpk : packParagraphs chunkSize chunkOverlap (normalizeParagraphs text) [] with
  | nil => intro hi _; simp at hi
  | cons p0 ptl =>
    intro hi hspec
    have hp0 : pyStrip p0 = p0 ∧ p0 ≠ [] := by
      have := hspec p0 (by simp)
      exact ⟨this.1, this.2⟩
    simp only [List.getD_cons_succ]
    exact applyOverlapAux_getD chunkOverlap hk ptl p0 hp0
      (fun c hc => hspec c (by simp [hc])) i (by simpa using hi)

/-- C5 (counterexample to the claim as stated): with `chunk_size = 10`,
`chunk_overlap = 3`, overlap inclusion enabled and input
`"ab cd\n\nefgh"`, the chunker returns `["ab cd", "cdefgh"]`.  The last 3
characters of chunk 0 are `" cd"`, but chunk 1 is `"cdefgh"`: the final
`strip()` removed the overlap's leading space, so the start of chunk 1 does
not contain the last `chunk_overlap` characters of chunk 0 (indeed `" cd"`
occurs nowhere in chunk 1). -/
theorem c5_counterexample :
    splitText 10 3 true (String.toList "ab cd\n\nefgh") =
        [String.toList "ab cd", String.toList "cdefgh"] ∧
      takeRight 3 (String.toList "ab cd") = String.toList " cd" ∧
      ¬(String.toList " cd" <:+: String.toList "cdefgh") := by
  refine ⟨by decide, by decide, ?_⟩
  intro h
  have := List.IsInfix.sublist h
  have hmem : ' ' ∈ String.toList "cdefgh" := this.mem (by decide)
  revert hmem
  decide

/-- C5 witness: the amended statement instantiated at the counterexample
input and `i = 0`:
`chunk 1 = lstrip(" cd") ++ "efgh" = "cdefgh"`. -/
theorem c5_overlap_continuity_witness :
    0 < 3 ∧ 3 < 10 ∧
      0 + 1 < (packParagraphs 10 3 (normalizeParagraphs (String.toList "ab cd\n\nefgh")) []).length ∧
      (splitText 10 3 true (String.toList "ab cd\n\nefgh")).getD (0 + 1) [] =
        lstrip (takeRight 3
          ((packParagraphs 10 3 (normalizeParagraphs (String.toList "ab cd\n\nefgh")) []).getD 0 [])) ++
        (packParagraphs 10 3 (normalizeParagraphs (String.toList "ab cd\n\nefgh")) []).getD (0 + 1) [] :=
  ⟨by decide, by decide, by decide,
    c5_overlap_continuity (String.toList "ab cd\n\nefgh") 10 3 (by decide) (by decide) 0 (by decide)⟩

/-! ## Adaptive threshold monotonicity (claim C1) -/

theorem pyMax_eq_max (a b : ℚ) : pyMax a b = max a b := by
  rw [pyMax, max_def]

theorem dynamicFilter_eq (s0 : ℚ) (rest : List ℚ) :
    dynamicFilter s0 rest =
      if (strictFiltered s0 rest).length < 2 ∧ 2 < (s0 :: rest).length then
        (s0 :: rest).filter (fun s => decide (SIMILARITY_THRESHOLD < s))
      else strictFiltered s0 rest := rfl

theorem pyMaxList_eq_self (s0 : ℚ) (rest : List ℚ) (h : ∀ o ∈ rest, o ≤ s0) :
    pyMaxList s0 rest = s0 := by
  unfold pyMaxList
  induction rest with
  | nil => rfl
  | cons o t ih =>
    have ho : o ≤ s0 := h o (by simp)
    have : pyMax s0 o = s0 := by rw [pyMax_eq_max]; exact max_eq_left ho
    rw [List.foldl_cons, this]
    exact ih (fun x hx => h x (by simp [hx]))

unseal Rat.mul Rat.inv in
/-- C1 (counterexample to the claim as stated): with the candidate scores
`[best, 0.4]` and `SIMILARITY_THRESHOLD = 0.45`, raising the best score from
`0.44` to `0.46` (all other scores held constant) raises the survivor count
of the adaptive filter from 0 to 1: at `best = 0.44` nothing clears the
threshold `max(0.45, 0.7·0.44) = 0.45`, while at `best = 0.46` the best
itself does. -/
theorem c1_counterexample :
    (∀ o ∈ [(2 : ℚ) / 5], o ≤ 44 / 100) ∧ ((44 : ℚ) / 100) < 46 / 100 ∧
      ¬((dynamicFilter (46 / 100) [2 / 5]).length ≤
        (dynamicFilter (44 / 100) [2 / 5]).length) := by
  refine ⟨?_, by decide, by decide⟩
  intro o ho
  rw [List.mem_singleton] at ho
  subst ho
  decide

/-- C1 (amended): if `best_score` increases while all the other candidate
scores are held constant, the original best score already exceeds
`SIMILARITY_THRESHOLD`, and the relaxed fallback (fewer than 2 strict
survivors while more than 2 candidates exist) is not triggered at the
increased best score, then the survivor count of the adaptive filter is
non-increasing. -/
theorem c1_adaptive_monotone (b1 b2 : ℚ) (others : List ℚ)
    (hmax : ∀ o ∈ others, o ≤ b1) (hlt : b1 < b2)
    (hthr : SIMILARITY_THRESHOLD < b1)
    (hnorelax : ¬((strictFiltered b2 others).length < 2 ∧ 2 < (b2 :: others).length)) :
    (dynamicFilter b2 others).length ≤ (dynamicFilter b1 others).length := by
  have hmax2 : ∀ o ∈ others, o ≤ b2 := fun o ho => le_trans (hmax o ho) (le_of_lt hlt)
  have hm1 : pyMaxList b1 others = b1 := pyMaxList_eq_self b1 others hmax
  have hm2 : pyMaxList b2 others = b2 := pyMaxList_eq_self b2 others hmax2
  have hTpos : (0 : ℚ) < SIMILARITY_THRESHOLD := by rw [SIMILARITY_THRESHOLD]; norm_num
  have hb1pos : (0 : ℚ) < b1 := lt_trans hTpos hthr
  have hthr_lt : pyMax SIMILARITY_THRESHOLD (b1 * (7 / 10)) < b1 := by
    rw [pyMax_eq_max, max_lt_iff]
    constructor
    · exact hthr
    · nlinarith
  have hthr_mono : pyMax SIMILARITY_THRESHOLD (pyMaxList b1 others * (7 / 10)) ≤
      pyMax SIMILARITY_THRESHOLD (pyMaxList b2 others * (7 / 10)) := by
    rw [pyMax_eq_max, pyMax_eq_max, hm1, hm2]
    exact max_le_max le_rfl (by nlinarith)
  have hstrict : (strictFiltered b2 others).length ≤ (strictFiltered b1 others).length := by
    unfold strictFiltered
    rw [← List.countP_eq_length_filter, ← List.countP_eq_length_filter,
      List.countP_cons, List.countP_cons]
    have hhead1 : (decide (pyMax SIMILARITY_THRESHOLD (pyMaxList b1 others * (7 / 10)) < b1) : Bool) = true := by
      rw [hm1]
      exact decide_eq_true hthr_lt
    have htail : List.countP
        (fun s => decide (pyMax SIMILARITY_THRESHOLD (pyMaxList b2 others * (7 / 10)) < s)) others ≤
        List.countP
        (fun s => decide (pyMax SIMILARITY_THRESHOLD (pyMaxList b1 others * (7 / 10)) < s)) others := by
      apply List.countP_mono_left
      intro o _ hdec
      rw [decide_eq_true_eq] at hdec ⊢
      exact lt_of_le_of_lt hthr_mono hdec
    rw [hhead1]
    have hone : (if true = true then 1 else 0) = 1 := by simp
    rw [hone]
    have hif2 : (if decide (pyMax SIMILARITY_THRESHOLD (pyMaxList b2 others * (7 / 10)) < b2) = true then 1 else 0) ≤ 1 := by
      split <;> omega
    omega
  have hrelax1 : (strictFiltered b1 others).length ≤ (dynamicFilter b1 others).length := by
    rw [dynamicFilter_eq]
    split
    · unfold strictFiltered
      rw [← List.countP_eq_length_filter, ← List.countP_eq_length_filter]
      apply List.countP_mono_left
      intro o _ hdec
      rw [decide_eq_true_eq] at hdec ⊢
      refine lt_of_le_of_lt ?_ hdec
      rw [pyMax_eq_max]
      exact le_max_left _ _
    · exact le_rfl
  have h2 : (dynamicFilter b2 others).length = (strictFiltered b2 others).length := by
    rw [dynamicFilter_eq, if_neg hnorelax]
  rw [h2]
  exact le_trans hstrict hrelax1

unseal Rat.mul Rat.inv in
/-- C1 witness: the amended statement at `best 0.72 → 0.8` with the other
scores `[0.7, 0.7]`: all three candidates survive the strict filter in both
cases (3 ≤ 3). -/
theorem c1_adaptive_monotone_witness :
    (∀ o ∈ [(7 : ℚ) / 10, 7 / 10], o ≤ 72 / 100) ∧ ((72 : ℚ) / 100) < 8 / 10 ∧
      SIMILARITY_THRESHOLD < (72 : ℚ) / 100 ∧
      ¬((strictFiltered (8 / 10) [7 / 10, 7 / 10]).length < 2 ∧
        2 < ((8 : ℚ) / 10 :: [7 / 10, 7 / 10]).length) ∧
      (dynamicFilter (8 / 10) [7 / 10, 7 / 10]).length ≤
        (dynamicFilter (72 / 100) [7 / 10, 7 / 10]).length := by
  refine ⟨?_, by decide, by decide, by decide, ?_⟩
  · intro o ho
    simp only [List.mem_cons, List.mem_singleton, List.not_mem_nil, or_false] at ho
    rcases ho with rfl | rfl <;> decide
  · exact c1_adaptive_monotone (72 / 100) (8 / 10) [7 / 10, 7 / 10]
      (by intro o ho
          simp only [List.mem_cons, List.mem_singleton, List.not_mem_nil, or_false] at ho
          rcases ho with rfl | rfl <;> decide)
      (by decide) (by decide) (by decide)

/-! ## Context budget (claims C2 and C10) -/

theorem rfindCharBefore_le (text : List Char) (c : Char) (limit e : ℕ)
    (h : rfindCharBefore text c limit = some e) : e + 1 ≤ limit := by
  unfold rfindCharBefore at h
  cases hf : (text.take limit).reverse.findIdx? (· == c) with
  | none => rw [hf] at h; simp at h
  | some j =>
    rw [hf] at h
    simp only [Option.some.injEq] at h
    subst h
    have hne : (text.take limit).reverse ≠ [] := by
      intro hnil
      rw [hnil] at hf
      simp at hf
    have hlen : 1 ≤ (text.take limit).length := by
      rw [← List.length_reverse]
      exact List.length_pos.mpr hne
    have hlim : (text.take limit).length ≤ limit := by simp [List.length_take]
    omega

theorem findSentenceCutoff_le (text : List Char) (limit : ℕ) :
    findSentenceCutoff text limit ≤ limit := by
  unfold findSentenceCutoff
  cases h1 : rfindCharBefore text '.' limit with
  | some e => exact rfindCharBefore_le text '.' limit e h1
  | none =>
    cases h2 : rfindCharBefore text ' ' limit with
    | some e => exact rfindCharBefore_le text ' ' limit e h2
    | none => exact le_rfl

theorem buildLoop_sum_le (charLimit : ℤ) (docs : List RetrievedDoc)
    (parts : List (List Char)) (sources : List SourceInfo) (total : ℤ)
    (h0 : 0 ≤ total) (hle : total ≤ charLimit) :
    (((buildLoop charLimit docs parts sources total).1.map List.length).sum : ℤ) ≤
      ((parts.map List.length).sum : ℤ) + (charLimit - total) := by
  induction docs generalizing parts sources total with
  | nil =>
    unfold buildLoop
    show ((parts.map List.length).sum : ℤ) ≤ ((parts.map List.length).sum : ℤ) + (charLimit - total)
    omega
  | cons doc rest ih =>
    unfold buildLoop
    by_cases hemp : (pyStrip doc.content).isEmpty = true
    · rw [if_pos hemp]
      exact ih parts sources total h0 hle
    · rw [if_neg hemp]
      by_cases hover : charLimit - total < ((pyStrip doc.content).length : ℤ)
      · rw [if_pos hover]
        by_cases h300 : (300 : ℤ) ≤ charLimit - total
        · rw [if_pos h300]
          simp only [List.map_append, List.sum_append, List.map_cons, List.map_nil,
            List.sum_cons, List.sum_nil]
          have htr : (pyStrip ((pyStrip doc.content).take
              (findSentenceCutoff (pyStrip doc.content) (charLimit - total).toNat))).length ≤
              (charLimit - total).toNat :=
            le_trans (length_pyStrip_take_le _ _) (findSentenceCutoff_le _ _)
          omega
        · rw [if_neg h300]
          show ((parts.map List.length).sum : ℤ) ≤
            ((parts.map List.length).sum : ℤ) + (charLimit - total)
          omega
      · rw [if_neg hover]
        have hlen : (0 : ℤ) ≤ ((pyStrip doc.content).length : ℤ) := by positivity
        have := ih (parts ++ [pyStrip doc.content])
          (if sources.any (fun s => s.title == doc.title && s.source_file == doc.source_file)
            then sources else sources ++ [mkSourceInfo doc])
          (total + (pyStrip doc.content).length) (by omega) (by omega)
        simp only [List.map_append, List.map_cons, List.map_nil, List.sum_append,
          List.sum_cons, List.sum_nil] at this
        omega

theorem buildLoop_parts_len_le (charLimit : ℤ) (docs : List RetrievedDoc)
    (parts : List (List Char)) (sources : List SourceInfo) (total : ℤ) :
    (buildLoop charLimit docs parts sources total).1.length ≤ parts.length + docs.length := by
  induction docs generalizing parts sources total with
  | nil => unfold buildLoop; simp
  | cons doc rest ih =>
    unfold buildLoop
    by_cases hemp : (pyStrip doc.content).isEmpty = true
    · rw [if_pos hemp]
      exact le_trans (ih parts sources total) (by simp)
    · rw [if_neg hemp]
      by_cases hover : charLimit - total < ((pyStrip doc.content).length : ℤ)
      · rw [if_pos hover]
        by_cases h300 : (300 : ℤ) ≤ charLimit - total
        · rw [if_pos h300]
          show (parts ++ [pyStrip ((pyStrip doc.content).take
              (findSentenceCutoff (pyStrip doc.content) (charLimit - total).toNat))]).length ≤
            parts.length + (doc :: rest).length
          simp only [List.length_append, List.length_cons, List.length_nil]
          omega
        · rw [if_neg h300]
          show parts.length ≤ parts.length + (doc :: rest).length
          simp
      · rw [if_neg hover]
        refine le_trans (ih _ _ _) ?_
        simp only [List.length_append, List.length_cons, List.length_nil]
        omega

theorem length_intercalate_ctxSep (parts : List (List Char)) :
    (List.intercalate ctxSep parts).length =
      (parts.map List.length).sum + 7 * (parts.length - 1) := by
  induction parts with
  | nil => simp [List.intercalate]
  | cons a t ih =>
    cases t with
    | nil => simp [List.intercalate]
    | cons b t2 =>
      have hstep : List.intercalate ctxSep (a :: b :: t2) =
          a ++ ctxSep ++ List.intercalate ctxSep (b :: t2) := by
        unfold List.intercalate
        rw [List.intersperse_cons_cons]
        simp [List.append_assoc]
      rw [hstep]
      simp only [List.length_append, ih]
      have hsep : ctxSep.length = 7 := by decide
      simp only [List.map_cons, List.sum_cons, List.length_cons]
      omega

/-- C2 (amended): for every characters-per-token estimate, every
`max_tokens` and every retrieval result set, the total length of the chunk
texts packed by `build_context` (the separators excluded) is at most
`max_tokens * chars_per_token_estimate`; the returned context itself obeys
`len(context) ≤ max_tokens * chars_per_token_estimate + 7 * (number of
documents − 1)`, the excess over the budget being exactly the 7-character
`"\n\n---\n\n"` separators inserted between parts, which the loop's
character accounting does not count. -/
theorem c2_context_budget (avgTokenLen maxTokens : ℕ) (documents : List RetrievedDoc) :
    ((buildLoop ((maxTokens * avgTokenLen : ℕ) : ℤ) (sortByScoreDesc documents) [] [] 0).1.map
        List.length).sum ≤ maxTokens * avgTokenLen ∧
    (buildContext avgTokenLen maxTokens documents).1.length ≤
      maxTokens * avgTokenLen + 7 * (documents.length - 1) := by
  have hsum := buildLoop_sum_le ((maxTokens * avgTokenLen : ℕ) : ℤ) (sortByScoreDesc documents)
    [] [] 0 le_rfl (by positivity)
  simp only [List.map_nil, List.sum_nil, Nat.cast_zero, zero_add, sub_zero] at hsum
  have hsum' : ((buildLoop ((maxTokens * avgTokenLen : ℕ) : ℤ) (sortByScoreDesc documents)
      [] [] 0).1.map List.length).sum ≤ maxTokens * avgTokenLen := by exact_mod_cast hsum
  refine ⟨hsum', ?_⟩
  unfold buildContext
  by_cases hdoc : documents.isEmpty = true
  · rw [if_pos hdoc]; simp
  · rw [if_neg hdoc]
    simp only []
    rw [length_intercalate_ctxSep]
    have hparts := buildLoop_parts_len_le ((maxTokens * avgTokenLen : ℕ) : ℤ)
      (sortByScoreDesc documents) [] [] 0
    have hsort : (sortByScoreDesc documents).length = documents.length :=
      (List.perm_insertionSort _ documents).length_eq
    rw [List.length_nil, zero_add, hsort] at hparts
    omega

theorem pyStrip_no_ws (l : List Char) (h : ∀ c ∈ l, pyIsSpace c = false) : pyStrip l = l := by
  by_cases hne : l = []
  · rw [hne]; rfl
  · have hr : rstrip l = l := by
      refine rstrip_eq_self_of_last l hne ?_
      rw [h (l.getLast hne) (List.getLast_mem hne)]
      simp
    have hls : lstrip l = l := by
      refine lstrip_eq_self_of_head l hne ?_
      rw [h (l.head hne) (List.head_mem hne)]
      simp
    show lstrip (rstrip l) = l
    rw [hr, hls]

theorem buildLoop_nil_eq (charLimit : ℤ) (parts : List (List Char))
    (sources : List SourceInfo) (total : ℤ) :
    buildLoop charLimit [] parts sources total = (parts, sources) := rfl

theorem buildLoop_cons_fits (charLimit : ℤ) (doc : RetrievedDoc) (rest : List RetrievedDoc)
    (parts : List (List Char)) (sources : List SourceInfo) (total : ℤ)
    (hne : pyStrip doc.content ≠ [])
    (hfit : ¬(charLimit - total < ((pyStrip doc.content).length : ℤ))) :
    buildLoop charLimit (doc :: rest) parts sources total =
      buildLoop charLimit rest (parts ++ [pyStrip doc.content])
        (if sources.any (fun s => s.title == doc.title && s.source_file == doc.source_file)
          then sources else sources ++ [mkSourceInfo doc])
        (total + (pyStrip doc.content).length) := by
  conv_lhs => unfold buildLoop
  rw [if_neg (by simpa [List.isEmpty_iff] using hne), if_neg hfit]

set_option maxRecDepth 40000 in
/-- C2 (counterexample to the claim as stated): with the default tokenizer
the characters-per-token estimate is 5, so `max_tokens = 100` gives a
character budget of 500 — comfortably above the 300-character
minimum-viable-chunk size the packing loop itself uses.  Two documents of
250 stripped characters each are both packed in full (the loop's character
accounting allows it: 250 + 250 = 500 ≤ 500), yet the returned context has
length 507 > 500, because the 7-character `"\n\n---\n\n"` separator joined
between the parts is never counted against the budget.
`c2_counterexample_family` shows the same violation at every budget,
including the `max_tokens = 2000` default. -/
theorem c2_counterexample :
    defaultAvgTokenLen = 5 ∧
      (buildContext defaultAvgTokenLen 100
        [⟨['t'], ['f'], List.replicate 250 'a', 1⟩,
          ⟨['u'], ['g'], List.replicate 250 'b', 0⟩]).1.length = 507 ∧
      ¬((507 : ℕ) ≤ 100 * defaultAvgTokenLen) := by
  refine ⟨by decide, ?_, by decide⟩
  decide

/-- C2 (the counterexample scales to every budget): for every `k > 0`, with
estimate 5 and `max_tokens = 2*k` (budget `10*k`), two documents of `5*k`
characters are packed in full and the context length is `10*k + 7`,
exceeding `max_tokens * estimate` — in particular at the repository's
defaults `max_tokens = 2000` (`k = 1000`) and `max_tokens = 1500`
(`k = 750`). -/
theorem c2_counterexample_family (k : ℕ) (hk : 0 < k) :
    (buildContext 5 (2 * k)
      [⟨['t'], ['f'], List.replicate (5 * k) 'a', 1⟩,
        ⟨['u'], ['g'], List.replicate (5 * k) 'b', 0⟩]).1.length = 10 * k + 7 := by
  set r1 : List Char := List.replicate (5 * k) 'a' with hr1
  set r2 : List Char := List.replicate (5 * k) 'b' with hr2
  set d1 : RetrievedDoc := ⟨['t'], ['f'], r1, 1⟩ with hd1
  set d2 : RetrievedDoc := ⟨['u'], ['g'], r2, 0⟩ with hd2
  have hstrip1 : pyStrip d1.content = r1 := by
    show pyStrip r1 = r1
    exact pyStrip_no_ws r1 (fun c hc => by rw [List.eq_of_mem_replicate hc]; decide)
  have hstrip2 : pyStrip d2.content = r2 := by
    show pyStrip r2 = r2
    exact pyStrip_no_ws r2 (fun c hc => by rw [List.eq_of_mem_replicate hc]; decide)
  have hlen1 : r1.length = 5 * k := List.length_replicate _ _
  have hlen2 : r2.length = 5 * k := List.length_replicate _ _
  have hne1 : r1 ≠ [] := by
    rw [hr1]
    simp only [ne_eq, List.replicate_eq_nil_iff]
    omega
  have hne2 : r2 ≠ [] := by
    rw [hr2]
    simp only [ne_eq, List.replicate_eq_nil_iff]
    omega
  have hsort : sortByScoreDesc [d1, d2] = [d1, d2] := by
    unfold sortByScoreDesc
    show List.orderedInsert _ d1 (List.orderedInsert _ d2 []) = [d1, d2]
    show List.orderedInsert _ d1 [d2] = [d1, d2]
    unfold List.orderedInsert
    rw [if_pos]
    show d2.score ≤ d1.score
    show (0 : ℚ) ≤ 1
    norm_num
  unfold buildContext
  rw [if_neg (by simp)]
  simp only [hsort]
  rw [buildLoop_cons_fits _ d1 _ _ _ _ (hstrip1 ▸ hne1)
      (by rw [hstrip1, hlen1]; push_cast; omega),
    buildLoop_cons_fits _ d2 _ _ _ _ (hstrip2 ▸ hne2)
      (by rw [hstrip2, hlen2, hstrip1, hlen1]; push_cast; omega),
    buildLoop_nil_eq]
  rw [hstrip1, hstrip2]
  show (List.intercalate ctxSep ([] ++ [r1] ++ [r2])).length = 10 * k + 7
  rw [length_intercalate_ctxSep]
  simp only [List.nil_append, List.singleton_append, List.map_cons, List.map_nil,
    List.sum_cons, List.sum_nil, List.length_cons, List.length_nil, hlen1, hlen2]
  omega

/-- C2 helper for the family theorem: the violation itself at the default
`max_tokens = 2000`. -/
theorem c2_family_at_default :
    ¬((buildContext 5 (2 * 1000)
      [⟨['t'], ['f'], List.replicate (5 * 1000) 'a', 1⟩,
        ⟨['u'], ['g'], List.replicate (5 * 1000) 'b', 0⟩]).1.length ≤ 2 * 1000 * 5) := by
  rw [c2_counterexample_family 1000 (by norm_num)]
  norm_num

theorem infix_append_left_ctx {l r : List Char} (x : List Char) (h : l <:+: r) :
    l <:+: x ++ r := by
  obtain ⟨s, t, rfl⟩ := h
  exact ⟨x ++ s, t, by simp [List.append_assoc]⟩

theorem mem_intercalate_infix (parts : List (List Char)) (p : List Char) (hp : p ∈ parts) :
    p <:+: List.intercalate ctxSep parts := by
  induction parts with
  | nil => simp at hp
  | cons a t ih =>
    rcases List.mem_cons.mp hp with rfl | hpt
    · cases t with
      | nil =>
        refine ⟨[], [], ?_⟩
        simp [List.intercalate]
      | cons b t2 =>
        have hstep : List.intercalate ctxSep (p :: b :: t2) =
            p ++ (ctxSep ++ List.intercalate ctxSep (b :: t2)) := by
          unfold List.intercalate
          rw [List.intersperse_cons_cons]
          simp [List.append_assoc]
        rw [hstep]
        exact ⟨[], ctxSep ++ List.intercalate ctxSep (b :: t2), by simp⟩
    · cases t with
      | nil => simp at hpt
      | cons b t2 =>
        have hstep : List.intercalate ctxSep (a :: b :: t2) =
            (a ++ ctxSep) ++ List.intercalate ctxSep (b :: t2) := by
          unfold List.intercalate
          rw [List.intersperse_cons_cons]
          simp [List.append_assoc]
        rw [hstep]
        exact infix_append_left_ctx (a ++ ctxSep) (ih hpt)

theorem buildLoop_cons_empty (charLimit : ℤ) (doc : RetrievedDoc) (rest : List RetrievedDoc)
    (parts : List (List Char)) (sources : List SourceInfo) (total : ℤ)
    (hemp : (pyStrip doc.content).isEmpty = true) :
    buildLoop charLimit (doc :: rest) parts sources total =
      buildLoop charLimit rest parts sources total := by
  conv_lhs => unfold buildLoop
  rw [if_pos hemp]

theorem buildLoop_cons_trunc (charLimit : ℤ) (doc : RetrievedDoc) (rest : List RetrievedDoc)
    (parts : List (List Char)) (sources : List SourceInfo) (total : ℤ)
    (hemp : ¬(pyStrip doc.content).isEmpty = true)
    (hover : charLimit - total < ((pyStrip doc.content).length : ℤ))
    (h300 : (300 : ℤ) ≤ charLimit - total) :
    buildLoop charLimit (doc :: rest) parts sources total =
      (parts ++ [pyStrip ((pyStrip doc.content).take
        (findSentenceCutoff (pyStrip doc.content) (charLimit - total).toNat))], sources) := by
  conv_lhs => unfold buildLoop
  rw [if_neg hemp, if_pos hover, if_pos h300]

theorem buildLoop_cons_break (charLimit : ℤ) (doc : RetrievedDoc) (rest : List RetrievedDoc)
    (parts : List (List Char)) (sources : List SourceInfo) (total : ℤ)
    (hemp : ¬(pyStrip doc.content).isEmpty = true)
    (hover : charLimit - total < ((pyStrip doc.content).length : ℤ))
    (h300 : ¬((300 : ℤ) ≤ charLimit - total)) :
    buildLoop charLimit (doc :: rest) parts sources total = (parts, sources) := by
  conv_lhs => unfold buildLoop
  rw [if_neg hemp, if_pos hover, if_neg h300]

theorem buildLoop_sources_spec (charLimit : ℤ) (allDocs : List RetrievedDoc) :
    ∀ (docs : List RetrievedDoc), (∀ d ∈ docs, d ∈ allDocs) →
    ∀ (parts : List (List Char)) (srcs : List SourceInfo) (total : ℤ),
    (∀ s ∈ srcs, ∃ d ∈ allDocs, s.title = d.title ∧ s.source_file = d.source_file ∧
      s.score = d.score ∧ pyStrip d.content ∈ parts) →
    ∀ s ∈ (buildLoop charLimit docs parts srcs total).2,
      ∃ d ∈ allDocs, s.title = d.title ∧ s.source_file = d.source_file ∧
        s.score = d.score ∧ pyStrip d.content ∈ (buildLoop charLimit docs parts srcs total).1 := by
  intro docs
  induction docs with
  | nil =>
    intro _ parts srcs total hsrcs s hs
    exact hsrcs s hs
  | cons doc rest ih =>
    intro hsub parts srcs total hsrcs s hs
    have hsub' : ∀ d ∈ rest, d ∈ allDocs := fun d hd => hsub d (by simp [hd])
    by_cases hemp : (pyStrip doc.content).isEmpty = true
    · rw [buildLoop_cons_empty _ _ _ _ _ _ hemp] at hs ⊢
      exact ih hsub' parts srcs total hsrcs s hs
    · by_cases hover : charLimit - total < ((pyStrip doc.content).length : ℤ)
      · by_cases h300 : (300 : ℤ) ≤ charLimit - total
        · rw [buildLoop_cons_trunc _ _ _ _ _ _ hemp hover h300] at hs ⊢
          obtain ⟨d, hd, h1, h2, h3, h4⟩ := hsrcs s hs
          exact ⟨d, hd, h1, h2, h3, by simp [h4]⟩
        · rw [buildLoop_cons_break _ _ _ _ _ _ hemp hover h300] at hs ⊢
          exact hsrcs s hs
      · rw [buildLoop_cons_fits _ _ _ _ _ _ (by simpa [List.isEmpty_iff] using hemp)
          hover] at hs ⊢
        refine ih hsub' (parts ++ [pyStrip doc.content]) _ _ ?_ s hs
        intro s' hs'
        by_cases hdup : srcs.any
            (fun s => s.title == doc.title && s.source_file == doc.source_file) = true
        · rw [if_pos hdup] at hs'
          obtain ⟨d, hd, h1, h2, h3, h4⟩ := hsrcs s' hs'
          exact ⟨d, hd, h1, h2, h3, by simp [h4]⟩
        · rw [if_neg hdup] at hs'
          rcases List.mem_append.mp hs' with hold | hnew
          · obtain ⟨d, hd, h1, h2, h3, h4⟩ := hsrcs s' hold
            exact ⟨d, hd, h1, h2, h3, by simp [h4]⟩
          · have hs'' := List.mem_singleton.mp hnew
            subst hs''
            exact ⟨doc, hsub doc (by simp), rfl, rfl, rfl, by simp⟩

/-- C10 (confirmed): every entry of the `sources` list returned by
`build_context` carries the `(title, source_file, score)` of a retrieved
document whose stripped content was packed into the context **in full** (it
occurs verbatim inside the returned context string).  In particular a
truncated chunk never contributes a source entry: in the truncation branch
the loop stops without touching `sources`. -/
theorem c10_sources_only_full (avgTokenLen maxTokens : ℕ) (documents : List RetrievedDoc) :
    ∀ s ∈ (buildContext avgTokenLen maxTokens documents).2,
      ∃ d ∈ documents, s.title = d.title ∧ s.source_file = d.source_file ∧
        s.score = d.score ∧
        pyStrip d.content <:+: (buildContext avgTokenLen maxTokens documents).1 := by
  intro s hs
  unfold buildContext at hs ⊢
  by_cases hdoc : documents.isEmpty = true
  · rw [if_pos hdoc] at hs
    simp at hs
  · rw [if_neg hdoc] at hs ⊢
    have hsub : ∀ d ∈ sortByScoreDesc documents, d ∈ documents := by
      intro d hd
      exact (List.perm_insertionSort _ documents).subset hd
    obtain ⟨d, hd, h1, h2, h3, h4⟩ := buildLoop_sources_spec
      ((maxTokens * avgTokenLen : ℕ) : ℤ) documents (sortByScoreDesc documents) hsub
      [] [] 0 (by intro s hs; simp at hs) s hs
    exact ⟨d, hd, h1, h2, h3, mem_intercalate_infix _ _ h4⟩

/-- C10 witness: instantiated at a single fully-included document. -/
theorem c10_sources_only_full_witness :
    ∃ d ∈ [(⟨['t'], ['f'], String.toList "hello", 1⟩ : RetrievedDoc)],
      (⟨['t'], ['f'], 1⟩ : SourceInfo).title = d.title ∧
      (⟨['t'], ['f'], 1⟩ : SourceInfo).source_file = d.source_file ∧
      (⟨['t'], ['f'], 1⟩ : SourceInfo).score = d.score ∧
      pyStrip d.content <:+:
        (buildContext 4 100 [(⟨['t'], ['f'], String.toList "hello", 1⟩ : RetrievedDoc)]).1 :=
  c10_sources_only_full 4 100 [⟨['t'], ['f'], String.toList "hello", 1⟩]
    ⟨['t'], ['f'], 1⟩ (by decide)

/-! ## Vector store invariants (claims C7 and C9) -/

/-- C9 (confirmed): a dimension-mismatched `add_documents` call leaves the
whole vector-store state — FAISS index contents, id-map, in-memory vectors,
and the on-disk documents/vectors files — exactly unchanged: the check at
lines 98-100 returns before any mutation. -/
theorem c9_dim_mismatch_noop (st : VectorStoreState) (docs : List (List Char))
    (vecs : List (List ℚ)) (vecsDim : ℕ) (h : vecsDim ≠ st.dimension) :
    addDocuments st docs vecs vecsDim = st := by
  unfold addDocuments
  rw [if_pos h]

/-- C9 witness: a 3-dimensional batch pushed into a 2-dimensional store is a
no-op. -/
theorem c9_dim_mismatch_noop_witness :
    (3 : ℕ) ≠ (VectorStoreState.mk [] [] [] 2 none none).dimension ∧
      addDocuments ⟨[], [], [], 2, none, none⟩ [['a']] [[1, 0, 0]] 3 =
        ⟨[], [], [], 2, none, none⟩ :=
  ⟨by decide, c9_dim_mismatch_noop ⟨[], [], [], 2, none, none⟩ [['a']] [[1, 0, 0]] 3 (by decide)⟩

/-- C7 (counterexample to the claim as stated): `add_documents` checks the
vector dimension but never that the number of documents matches the number
of vectors; passing one document with two (correctly 2-dimensional) vectors
leaves the FAISS index with 2 vectors against an id-map of length 1. -/
theorem c7_counterexample :
    (addDocuments ⟨[], [], [], 2, none, none⟩ [['a']] [[1, 0], [0, 1]] 2).indexVecs.length = 2 ∧
      (addDocuments ⟨[], [], [], 2, none, none⟩ [['a']] [[1, 0], [0, 1]] 2).documents.length = 1 ∧
      ¬((2 : ℕ) = 1) := by
  decide

theorem addDocuments_inv (st : VectorStoreState) (docs : List (List Char))
    (vecs : List (List ℚ)) (vecsDim : ℕ)
    (hinv : st.indexVecs.length = st.documents.length) (hlen : docs.length = vecs.length) :
    (addDocuments st docs vecs vecsDim).indexVecs.length =
      (addDocuments st docs vecs vecsDim).documents.length := by
  unfold addDocuments saveToDisk
  by_cases h : vecsDim ≠ st.dimension
  · rw [if_pos h]; exact hinv
  · rw [if_neg h]
    simp only [List.length_append]
    omega

theorem applyAddOps_inv (st : VectorStoreState) (ops : List AddOp)
    (hinv : st.indexVecs.length = st.documents.length)
    (hops : ∀ op ∈ ops, op.docs.length = op.vecs.length) :
    (applyAddOps st ops).indexVecs.length = (applyAddOps st ops).documents.length := by
  induction ops generalizing st with
  | nil => exact hinv
  | cons op rest ih =>
    unfold applyAddOps
    rw [List.foldl_cons]
    exact ih (addDocuments st op.docs op.vecs op.vecsDim)
      (addDocuments_inv st op.docs op.vecs op.vecsDim hinv (hops op (by simp)))
      (fun o ho => hops o (by simp [ho]))

/-- C7 (amended): provided every `add_documents` call supplies as many
documents as vectors, and the store is constructed over an initially empty
index from disk files whose vector count matches the document count, then
after loading and any sequence of adds the FAISS index size equals the
id-map length (`index.ntotal == len(documents)`).  Without those provisos
the invariant fails: a count-mismatched add breaks it
(`c7_counterexample`), and so does loading when the vectors file is absent
or count-mismatched, since the documents are still installed. -/
theorem c7_index_idmap_consistency (dimension : ℕ) (diskDocs : List (List Char))
    (diskVecs : List (List ℚ)) (hdisk : diskVecs.length = diskDocs.length)
    (ops : List AddOp) (hops : ∀ op ∈ ops, op.docs.length = op.vecs.length) :
    (applyAddOps (vectorStoreInit dimension [] (some diskDocs) (some diskVecs)) ops).indexVecs.length =
      (applyAddOps (vectorStoreInit dimension [] (some diskDocs) (some diskVecs)) ops).documents.length := by
  refine applyAddOps_inv _ ops ?_ hops
  unfold vectorStoreInit loadDocuments
  simp only [if_pos hdisk]
  simp [hdisk]

/-- C7 witness: loading one matching document/vector pair then adding one
matched batch keeps `index.ntotal == len(documents)`. -/
theorem c7_index_idmap_consistency_witness :
    ([[(1 : ℚ), 0]] : List (List ℚ)).length = ([['a']] : List (List Char)).length ∧
      (∀ op ∈ [AddOp.mk [['b']] [[0, 1]] 2], op.docs.length = op.vecs.length) ∧
      (applyAddOps (vectorStoreInit 2 [] (some [['a']]) (some [[1, 0]]))
        [AddOp.mk [['b']] [[0, 1]] 2]).indexVecs.length =
      (applyAddOps (vectorStoreInit 2 [] (some [['a']]) (some [[1, 0]]))
        [AddOp.mk [['b']] [[0, 1]] 2]).documents.length :=
  ⟨by decide, by decide,
    c7_index_idmap_consistency 2 [['a']] [[1, 0]] (by decide)
      [AddOp.mk [['b']] [[0, 1]] 2] (by decide)⟩

/-! ## Idempotent ingestion (claim C6) -/

theorem lookupMarker_setMarker (markers : List (List Char × ℕ)) (name : List Char) (t : ℕ) :
    lookupMarker (setMarker markers name t) name = some t := by
  unfold lookupMarker setMarker
  rw [List.find?_append]
  have hnone : (markers.filter (fun m => !(m.1 == name))).find? (fun m => m.1 == name) = none := by
    rw [List.find?_eq_none]
    intro m hm
    have := (List.mem_filter.mp hm).2
    simpa using this
  rw [hnone]
  simp

/-- C6 (confirmed): ingesting a single file through `process_directory`
without `force_reprocess`, starting with no processed marker for it,
processes it (returning its chunk count and writing the marker at the
current time `now1 ≥` the file's modification time); the second call finds
the marker, observes `file_mtime <= marker_mtime`, skips the file, returns
0, and leaves the marker state unchanged. -/
theorem c6_idempotent_ingestion (chunksOf : List Char → ℕ) (f : SourceFile)
    (markers0 : List (List Char × ℕ)) (now1 now2 : ℕ)
    (hnomarker : lookupMarker markers0 f.name = none)
    (hmtime : f.mtime ≤ now1) :
    processDirectory chunksOf [f] markers0 false now1 =
        (chunksOf f.name, setMarker markers0 f.name now1) ∧
      processDirectory chunksOf [f] (setMarker markers0 f.name now1) false now2 =
        (0, setMarker markers0 f.name now1) := by
  constructor
  · have hskip : shouldSkip markers0 f = false := by
      unfold shouldSkip
      rw [hnomarker]
    unfold processDirectory
    simp [hskip, processFilesLoop, processFile]
  · have hskip : shouldSkip (setMarker markers0 f.name now1) f = true := by
      unfold shouldSkip
      rw [lookupMarker_setMarker]
      simpa using hmtime
    unfold processDirectory
    simp [hskip]

/-- C6 witness: a 3-chunk file at mtime 5, processed at time 9 and again at
time 11. -/
theorem c6_idempotent_ingestion_witness :
    lookupMarker [] (SourceFile.mk ['a'] 5).name = none ∧
      (SourceFile.mk ['a'] 5).mtime ≤ 9 ∧
      processDirectory (fun _ => 3) [SourceFile.mk ['a'] 5] [] false 9 =
        (3, setMarker [] (SourceFile.mk ['a'] 5).name 9) ∧
      processDirectory (fun _ => 3) [SourceFile.mk ['a'] 5]
          (setMarker [] (SourceFile.mk ['a'] 5).name 9) false 11 =
        (0, setMarker [] (SourceFile.mk ['a'] 5).name 9) := by
  have h := c6_idempotent_ingestion (fun _ => 3) (SourceFile.mk ['a'] 5) [] 9 11
    (by decide) (by decide)
  exact ⟨by decide, by decide, h.1, h.2⟩

/-! ## Generation failure handling (claim C3) -/

/-- C3 (counterexample to the claim as stated): the LLM oracle fails at
attempt 0 with a transient-looking timeout error and would succeed at
attempt 1, yet `run_chain` invokes the LLM exactly once (trace `[0]`),
performs no backoff and no re-entry from the analysis stage, and returns an
error record whose user-facing content is the raw `"[LLM ERROR] ..."` string
of lines 293-303 — not the error-taxonomy message of
`_get_error_message`. -/
theorem c3_counterexample :
    c3Oracle 0 = Except.error ⟨String.toList "TimeoutError",
        String.toList "Request timeout: connection timed out"⟩ ∧
      c3Oracle 1 = Except.ok (String.toList "Hello") ∧
      (runChain c3Env c3Oracle 0).2 = [0] ∧
      (runChain c3Env c3Oracle 0).1.content =
        String.toList "[LLM ERROR] Request timeout: connection timed out" ∧
      (runChain c3Env c3Oracle 0).1.errType = some (String.toList "TimeoutError") ∧
      ¬((runChain c3Env c3Oracle 0).1.content =
        getErrorMessage (String.toList "TimeoutError")
          (String.toList "Request timeout: connection timed out")) := by
  refine ⟨rfl, rfl, by decide, by decide, by decide, by decide⟩

/-- C3 (amended): when the LLM generation call fails — transient-looking or
not — `run_chain` performs no retry and no backoff: it invokes the LLM
exactly once and immediately returns a response record with content
`"[LLM ERROR] " + str(e)` and an error field recording the exception type,
message, and `retry_attempted = (retry_count > 0)`.  The user-facing
error-taxonomy message of `_get_error_message` is produced only by the
outer handler, e.g. when prompt construction raises; in every failure case
the turn still produces a response record. -/
theorem c3_no_retry (env : ChainEnv) (llm : ℕ → Except LlmFailure (List Char))
    (retryCount : ℕ) (e : LlmFailure)
    (hcache : env.cachedResult = none) (hop : env.groqOperational = true)
    (hprompt : env.promptFailure = none) (hllm : llm retryCount = Except.error e) :
    runChain env llm retryCount =
      ({ content := String.toList "[LLM ERROR] " ++ e.msg, language := String.toList "en",
          sources := [], escalated := none, errType := some e.etype, errMsg := some e.msg,
          errRetryAttempted := some (decide (0 < retryCount)) }, [retryCount]) := by
  unfold runChain
  rw [hcache, hop, hprompt, hllm]
  rfl

/-- C3 witness: the amended statement at the concrete environment and
oracle of the counterexample. -/
theorem c3_no_retry_witness :
    c3Env.cachedResult = none ∧ c3Env.groqOperational = true ∧
      c3Env.promptFailure = none ∧
      c3Oracle 0 = Except.error ⟨String.toList "TimeoutError",
        String.toList "Request timeout: connection timed out"⟩ ∧
      runChain c3Env c3Oracle 0 =
        ({ content := String.toList "[LLM ERROR] Request timeout: connection timed out",
            language := String.toList "en", sources := [], escalated := none,
            errType := some (String.toList "TimeoutError"),
            errMsg := some (String.toList "Request timeout: connection timed out"),
            errRetryAttempted := some (decide (0 < 0)) }, [0]) :=
  ⟨rfl, rfl, rfl, rfl,
    c3_no_retry c3Env c3Oracle 0
      ⟨String.toList "TimeoutError", String.toList "Request timeout: connection timed out"⟩
      rfl rfl rfl rfl⟩

/-! ## Escalation round-trip (claim C8) -/

theorem containsSub_iff (pat l : List Char) : containsSub pat l = true ↔ pat <:+: l := by
  unfold containsSub
  rw [List.any_eq_true]
  constructor
  · rintro ⟨t, ht, hpre⟩
    rw [List.mem_tails] at ht
    exact List.infix_iff_prefix_suffix.mpr ⟨t, List.isPrefixOf_iff_prefix.mp hpre, ht⟩
  · intro h
    obtain ⟨t, hpre, hsuf⟩ := List.infix_iff_prefix_suffix.mp h
    exact ⟨t, (List.mem_tails _ _).mpr hsuf, List.isPrefixOf_iff_prefix.mpr hpre⟩

theorem removeSentinelFuel_sublist : ∀ (fuel : ℕ) (l : List Char),
    List.Sublist (removeSentinelFuel fuel l) l := by
  intro fuel
  induction fuel with
  | zero =>
    intro l
    cases l with
    | nil => exact List.Sublist.refl _
    | cons c rest => exact List.Sublist.refl _
  | succ fuel ih =>
    intro l
    cases l with
    | nil => exact List.Sublist.refl _
    | cons c rest =>
      show List.Sublist (removeSentinelFuel (fuel + 1) (c :: rest)) (c :: rest)
      unfold removeSentinelFuel
      by_cases hpre : escSentinel.isPrefixOf (c :: rest) = true
      · rw [if_pos hpre]
        exact List.Sublist.trans (ih _) (List.drop_sublist _ _)
      · rw [if_neg hpre]
        exact List.Sublist.cons₂ c (ih rest)

theorem count_bracket_removeSentinelFuel : ∀ (fuel : ℕ) (l : List Char),
    l.length ≤ fuel → escSentinel <:+: l →
    (removeSentinelFuel fuel l).count '[' + 1 ≤ l.count '[' := by
  intro fuel
  induction fuel with
  | zero =>
    intro l hlen hinf
    have hl : l = [] := by
      cases l with
      | nil => rfl
      | cons c rest => simp at hlen
    subst hl
    have : escSentinel = [] := List.sublist_nil.mp (List.IsInfix.sublist hinf)
    exact absurd this (by decide)
  | succ fuel ih =>
    intro l hlen hinf
    cases l with
    | nil =>
      have : escSentinel = [] := List.sublist_nil.mp (List.IsInfix.sublist hinf)
      exact absurd this (by decide)
    | cons c rest =>
      show (removeSentinelFuel (fuel + 1) (c :: rest)).count '[' + 1 ≤ (c :: rest).count '['
      unfold removeSentinelFuel
      by_cases hpre : escSentinel.isPrefixOf (c :: rest) = true
      · rw [if_pos hpre]
        have hp := List.isPrefixOf_iff_prefix.mp hpre
        obtain ⟨t, ht⟩ := hp
        have hdrop : (c :: rest).drop escSentinel.length = t := by
          rw [← ht]
          exact List.drop_left escSentinel t
        have hcount : (c :: rest).count '[' = escSentinel.count '[' + t.count '[' := by
          rw [← ht, List.count_append]
        have hsc : escSentinel.count '[' = 1 := by decide
        have hrec : (removeSentinelFuel fuel ((c :: rest).drop escSentinel.length)).count '[' ≤
            t.count '[' := by
          rw [hdrop]
          exact List.Sublist.count_le (removeSentinelFuel_sublist fuel t) '['
        omega
      · rw [if_neg hpre]
        rcases List.infix_cons_iff.mp hinf with hcase | hcase
        · exact absurd (List.isPrefixOf_iff_prefix.mpr hcase) hpre
        · have hlen' : rest.length ≤ fuel := by
            simp only [List.length_cons] at hlen
            omega
          have := ih rest hlen' hcase
          rw [List.count_cons, List.count_cons]
          omega

theorem splitOnNl2_cons (a : Char) (rest : List Char)
    (h : ∀ r, a = '\n' → rest = '\n' :: r → False) :
    splitOnNl2 (a :: rest) = (splitOnNl2 rest).modifyHead (a :: ·) := by
  conv_lhs => unfold splitOnNl2
  split
  · rename_i r heq
    injection heq with e1 e2
    exact (h r e1 e2).elim
  · rename_i x1 c r hno heq
    injection heq with e1 e2
    subst e1
    subst e2
    rfl
  · rename_i x1 heq
    exact absurd heq (by simp)

theorem mem_splitOnNl2_mem (t : List Char) : ∀ p ∈ splitOnNl2 t, ∀ c ∈ p, c ∈ t := by
  induction t using splitOnNl2.induct with
  | case1 rest ih =>
    intro p hp c hc
    rw [show splitOnNl2 ('\n' :: '\n' :: rest) = [] :: splitOnNl2 rest from rfl] at hp
    rcases List.mem_cons.mp hp with rfl | hp'
    · simp at hc
    · have := ih p hp' c hc
      simp [this]
  | case2 a rest h1 ih =>
    intro p hp c hc
    rw [splitOnNl2_cons a rest h1] at hp
    cases hrec : splitOnNl2 rest with
    | nil => rw [hrec] at hp; simp at hp
    | cons h0 tl =>
      rw [hrec] at hp
      simp only [List.modifyHead] at hp
      rcases List.mem_cons.mp hp with rfl | hp'
      · rcases List.mem_cons.mp hc with rfl | hc'
        · simp
        · have := ih h0 (by rw [hrec]; simp) c hc'
          simp [this]
      · have := ih p (by rw [hrec]; simp [hp']) c hc
        simp [this]
  | case3 =>
    intro p hp c hc
    rw [show splitOnNl2 [] = [[]] from rfl] at hp
    rcases List.mem_cons.mp hp with rfl | hp'
    · simp at hc
    · simp at hp'

set_option maxHeartbeats 1000000 in
theorem pySplitlinesAux_cons (c : Char) (rest : List Char)
    (h : ∀ r, c = '\r' → rest = '\n' :: r → False) :
    pySplitlinesAux (c :: rest) =
      if lineBreakChar c then [] :: (if rest.isEmpty then [] else pySplitlinesAux rest)
      else (pySplitlinesAux rest).modifyHead (c :: ·) := by
  conv_lhs => unfold pySplitlinesAux
  split
  · rename_i heq
    exact absurd heq (by simp)
  · rename_i r heq
    injection heq with e1 e2
    exact (h r e1 e2).elim
  · rename_i x1 c' r hno heq
    injection heq with e1 e2
    subst e1
    subst e2
    rfl

theorem mem_pySplitlinesAux_mem (t : List Char) :
    ∀ p ∈ pySplitlinesAux t, ∀ c ∈ p, c ∈ t := by
  induction t using pySplitlinesAux.induct with
  | case1 =>
    intro p hp c hc
    rw [show pySplitlinesAux [] = [[]] from rfl] at hp
    rcases List.mem_cons.mp hp with rfl | hp'
    · simp at hc
    · simp at hp'
  | case2 rest ih =>
    intro p hp c hc
    rw [show pySplitlinesAux ('\r' :: '\n' :: rest) =
        [] :: (if rest.isEmpty then [] else pySplitlinesAux rest) from rfl] at hp
    rcases List.mem_cons.mp hp with rfl | hp'
    · simp at hc
    · by_cases hre : rest.isEmpty = true
      · rw [if_pos hre] at hp'
        simp at hp'
      · rw [if_neg hre] at hp'
        have := ih p hp' c hc
        simp [this]
  | case3 a rest h1 hlb ih =>
    intro p hp c hc
    rw [pySplitlinesAux_cons a rest h1, if_pos hlb] at hp
    rcases List.mem_cons.mp hp with rfl | hp'
    · simp at hc
    · by_cases hre : rest.isEmpty = true
      · rw [if_pos hre] at hp'
        simp at hp'
      · rw [if_neg hre] at hp'
        have := ih p hp' c hc
        simp [this]
  | case4 a rest h1 hlb ih =>
    intro p hp c hc
    rw [pySplitlinesAux_cons a rest h1, if_neg hlb] at hp
    cases hrec : pySplitlinesAux rest with
    | nil => rw [hrec] at hp; simp at hp
    | cons h0 tl =>
      rw [hrec] at hp
      simp only [List.modifyHead] at hp
      rcases List.mem_cons.mp hp with rfl | hp'
      · rcases List.mem_cons.mp hc with rfl | hc'
        · simp
        · have := ih h0 (by rw [hrec]; simp) c hc'
          simp [this]
      · have := ih p (by rw [hrec]; simp [hp']) c hc
        simp [this]

theorem mem_pySplitlines_mem (t : List Char) :
    ∀ p ∈ pySplitlines t, ∀ c ∈ p, c ∈ t := by
  intro p hp c hc
  unfold pySplitlines at hp
  by_cases hte : t.isEmpty = true
  · rw [if_pos hte] at hp
    simp at hp
  · rw [if_neg hte] at hp
    exact mem_pySplitlinesAux_mem t p hp c hc

theorem mapM_option_mem {α β : Type} (f : α → Option β) :
    ∀ (l : List α) (out : List β), l.mapM f = some out →
      ∀ b ∈ out, ∃ a ∈ l, f a = some b := by
  intro l
  induction l with
  | nil =>
    intro out hout b hb
    simp only [List.mapM_nil, pure, Option.some.injEq] at hout
    subst hout
    simp at hb
  | cons a t ih =>
    intro out hout b hb
    simp only [List.mapM_cons] at hout
    cases hfa : f a with
    | none => rw [hfa] at hout; simp at hout
    | some y =>
      rw [hfa] at hout
      cases hmt : t.mapM f with
      | none => rw [hmt] at hout; simp at hout
      | some ys =>
        rw [hmt] at hout
        simp only [Option.bind_some, Option.some.injEq, pure] at hout
        have hout' : y :: ys = out := by simpa using hout
        subst hout'
        rcases List.mem_cons.mp hb with rfl | hbys
        · exact ⟨a, by simp, hfa⟩
        · obtain ⟨a', ha', hfa'⟩ := ih ys hmt b hbys
          exact ⟨a', by simp [ha'], hfa'⟩

theorem formatPara_mem (p : List Char) (piece : List (List Char))
    (h : formatPara p = some piece) :
    ∀ e ∈ piece, ∀ c ∈ e, c ∈ p ∨ c ∈ String.toList "### " := by
  intro e he c hc
  unfold formatPara at h
  by_cases hkw : startsWithAnyKeyword p = true
  · rw [if_pos hkw] at h
    simp only [Option.some.injEq] at h
    subst h
    have he' := List.mem_singleton.mp he
    subst he'
    rcases List.mem_append.mp hc with hl | hr
    · exact Or.inr hl
    · exact Or.inl hr
  · rw [if_neg hkw] at h
    by_cases hbul : allBulletLines (pySplitlines p) = true
    · rw [if_pos hbul] at h
      simp only [Option.some.injEq] at h
      subst h
      obtain ⟨line, hline, rfl⟩ := List.mem_map.mp he
      have hcl : c ∈ line :=
        List.IsInfix.sublist (pyStrip_infix_self line) |>.subset hc
      exact Or.inl (mem_pySplitlines_mem p line hline c hcl)
    · rw [if_neg hbul] at h
      cases hnum : numberedCheck (pySplitlines p) with
      | none => rw [hnum] at h; simp at h
      | some b =>
        rw [hnum] at h
        cases b with
        | true =>
          simp only [Option.some.injEq] at h
          subst h
          exact Or.inl (mem_pySplitlines_mem p e he c hc)
        | false =>
          simp only [Option.some.injEq] at h
          subst h
          have he' := List.mem_singleton.mp he
          subst he'
          exact Or.inl hc

theorem mem_intersperse_mem (sep : List Char) :
    ∀ (l : List (List Char)) (x : List Char), x ∈ l.intersperse sep → x = sep ∨ x ∈ l := by
  intro l
  induction l with
  | nil => intro x hx; simp at hx
  | cons a t ih =>
    intro x hx
    cases t with
    | nil =>
      simp only [List.intersperse_singleton] at hx
      exact Or.inr hx
    | cons b t2 =>
      rw [List.intersperse_cons_cons] at hx
      rcases List.mem_cons.mp hx with rfl | hx'
      · exact Or.inr (by simp)
      · rcases List.mem_cons.mp hx' with rfl | hx''
        · exact Or.inl rfl
        · rcases ih x hx'' with hs | hm
          · exact Or.inl hs
          · exact Or.inr (by simp [List.mem_cons.mp hm])

theorem formatResponse_mem (t out : List Char) (h : formatResponse t = some out) :
    ∀ c ∈ out, c ∈ t ∨ c ∈ String.toList "### " ∨ c = '\n' := by
  intro c hc
  unfold formatResponse at h
  cases hm : (splitOnNl2 t).mapM formatPara with
  | none => rw [hm] at h; simp at h
  | some pieces =>
    rw [hm] at h
    simp only [Option.bind_some, Option.some.injEq, bind, pure] at h
    have h' : List.intercalate ['\n', '\n'] pieces.flatten = out := by simpa using h
    subst h'
    unfold List.intercalate at hc
    obtain ⟨l, hl, hcl⟩ := List.mem_flatten.mp hc
    rcases mem_intersperse_mem ['\n', '\n'] pieces.flatten l hl with rfl | hlf
    · right; right
      rcases List.mem_cons.mp hcl with rfl | h2
      · rfl
      · simpa using h2
    · obtain ⟨piece, hpiece, hlp⟩ := List.mem_flatten.mp (by exact hlf)
      obtain ⟨part, hpart, hfp⟩ := mapM_option_mem formatPara (splitOnNl2 t) pieces hm piece hpiece
      rcases formatPara_mem part piece hfp l hlp c hcl with hcp | hcs
      · exact Or.inl (mem_splitOnNl2_mem t part hpart c hcp)
      · exact Or.inr (Or.inl hcs)

theorem postProcessAnswer_pos (enb : Bool) (ems : List (List Char)) (raw : List Char)
    (h : containsSub escSentinel raw = true) :
    postProcessAnswer enb ems raw =
      if enb && !ems.isEmpty then pyStrip (removeSentinel raw) ++ confirmationMessage
      else pyStrip (removeSentinel raw) := by
  unfold postProcessAnswer
  rw [if_pos h]

theorem bracket_not_mem_removeSentinel (raw : List Char)
    (h : escSentinel <:+: raw) (hc : raw.count '[' ≤ 1) :
    '[' ∉ removeSentinel raw := by
  intro hmem
  have hb := count_bracket_removeSentinelFuel raw.length raw (le_refl _) h
  have hpos : 0 < (removeSentinel raw).count '[' := List.count_pos_iff.mpr hmem
  have hrm : removeSentinel raw = removeSentinelFuel raw.length raw := rfl
  rw [hrm] at hpos
  omega

theorem bracket_not_mem_postProcessAnswer (raw : List Char) (enb : Bool)
    (ems : List (List Char)) (h : escSentinel <:+: raw) (hc : raw.count '[' ≤ 1) :
    '[' ∉ postProcessAnswer enb ems raw := by
  rw [postProcessAnswer_pos enb ems raw ((containsSub_iff _ _).mpr h)]
  have hbase : '[' ∉ pyStrip (removeSentinel raw) := fun hm =>
    bracket_not_mem_removeSentinel raw h hc
      ((List.IsInfix.sublist (pyStrip_infix_self (removeSentinel raw))).subset hm)
  by_cases he : (enb && !ems.isEmpty) = true
  · rw [if_pos he]
    intro hmem
    rcases List.mem_append.mp hmem with h1 | h2
    · exact hbase h1
    · exact absurd h2 (by decide)
  · rw [if_neg he]
    exact hbase

theorem bracket_not_mem_content (raw : List Char) (enb : Bool)
    (ems : List (List Char)) (h : escSentinel <:+: raw) (hc : raw.count '[' ≤ 1) :
    '[' ∉ (postProcess enb ems raw).1 := by
  show '[' ∉ (formatResponse (postProcessAnswer enb ems raw)).getD
      (postProcessAnswer enb ems raw)
  cases hf : formatResponse (postProcessAnswer enb ems raw) with
  | none =>
    rw [Option.getD_none]
    exact bracket_not_mem_postProcessAnswer raw enb ems h hc
  | some out =>
    rw [Option.getD_some]
    intro hmem
    rcases formatResponse_mem _ out hf '[' hmem with h1 | h2 | h3
    · exact bracket_not_mem_postProcessAnswer raw enb ems h hc h1
    · exact absurd h2 (by decide)
    · exact absurd h3 (by decide)

/-- **C8 (amended).**  For every raw LLM answer: if it contains the escalation
sentinel `[ESCALATE_TO_HR]`, the post-processing of `run_chain` sets
`escalated = true`, and, when escalation is enabled and an HR destination
exists, the invitation-to-escalate suffix is appended to the cleaned answer
before formatting; moreover, provided the raw answer contains at most one `[`
character, the sentinel is absent from the final formatted content.  If the
raw answer does not contain the sentinel, `escalated = false`.  (The proviso
is needed: removal of non-overlapping occurrences can splice a fresh
occurrence out of the surrounding characters, see `c8_counterexample`.) -/
theorem c8_escalation_round_trip (raw : List Char) (enb : Bool) (ems : List (List Char)) :
    (escSentinel <:+: raw →
      (postProcess enb ems raw).2 = true ∧
      (enb = true → ems ≠ [] →
        confirmationMessage <:+ postProcessAnswer enb ems raw) ∧
      (raw.count '[' ≤ 1 → ¬ escSentinel <:+: (postProcess enb ems raw).1)) ∧
    (¬ escSentinel <:+: raw → (postProcess enb ems raw).2 = false) := by
  constructor
  · intro h
    refine ⟨?_, ?_, ?_⟩
    · show containsSub escSentinel raw = true
      exact (containsSub_iff _ _).mpr h
    · intro henb hems
      subst henb
      rw [postProcessAnswer_pos true ems raw ((containsSub_iff _ _).mpr h)]
      cases ems with
      | nil => exact absurd rfl hems
      | cons a t =>
        rw [if_pos (by rfl)]
        exact List.suffix_append _ _
    · intro hc hinf
      have hmem : '[' ∈ (postProcess enb ems raw).1 :=
        (List.IsInfix.sublist hinf).subset (by decide : '[' ∈ escSentinel)
      exact bracket_not_mem_content raw enb ems h hc hmem
  · intro h
    show containsSub escSentinel raw = false
    cases hcs : containsSub escSentinel raw with
    | false => rfl
    | true => exact absurd ((containsSub_iff _ _).mp hcs) h

/-- **C8 counterexample.**  The raw answer
`"[[ESCALATE_TO_HR]ESCALATE_TO_HR]"` contains the sentinel and the turn is
escalated, yet Python's `str.replace` removes only the two literal
occurrences scanned left to right, splicing the surrounding characters into
a fresh occurrence: the final content is exactly `"[ESCALATE_TO_HR]"`, so
the sentinel is **not** absent from the final formatted content, refuting
the unconditional claim. -/
theorem c8_counterexample :
    (postProcess false [] (String.toList "[[ESCALATE_TO_HR]ESCALATE_TO_HR]")).2 = true ∧
    escSentinel <:+:
      (postProcess false [] (String.toList "[[ESCALATE_TO_HR]ESCALATE_TO_HR]")).1 := by
  decide

/-- Witness for `c8_escalation_round_trip` at a concrete escalating input. -/
theorem c8_escalation_round_trip_witness :
    (postProcess true [String.toList "hr@x"] (String.toList "Hi [ESCALATE_TO_HR]")).2 = true ∧
    confirmationMessage <:+
      postProcessAnswer true [String.toList "hr@x"] (String.toList "Hi [ESCALATE_TO_HR]") ∧
    ¬ escSentinel <:+:
      (postProcess true [String.toList "hr@x"] (String.toList "Hi [ESCALATE_TO_HR]")).1 := by
  have h := (c8_escalation_round_trip (String.toList "Hi [ESCALATE_TO_HR]") true
      [String.toList "hr@x"]).1 (by decide)
  exact ⟨h.1, h.2.1 rfl (by decide), h.2.2 (by decide)⟩
